import Mathlib

/-!
Verification of the fiff OME-TIFF / OME-Zarr bridge.

This file gives a shallow embedding, in Lean 4, of the core data model and
algorithms of the fiff package (TypeScript), and proves properties of the
embedded definitions.  Each embedded definition mirrors one function of the
source; JavaScript numbers that are always non-negative integers in the
modelled code paths are represented by Nat, values that may be the JS
sentinel -1 by Int, possibly-NaN parse results by Option, byte buffers by
List Nat, and JS Map objects by insertion-ordered association lists.
-/

set_option maxHeartbeats 1000000
set_option maxRecDepth 4000

namespace Fiff

/-! ## Generic JS-flavoured helpers -/

/-- Write the bytes of src into dst starting at offset off, mirroring the
semantics of TypedArray.set for the in-bounds case (all uses in the modelled
code are in bounds; out of bounds, where JS would throw, this clamps). -/
def writeBytes (dst : List Nat) (off : Nat) (src : List Nat) : List Nat :=
  dst.take off ++ src ++ dst.drop (off + src.length)

/-- Characters skipped by the JS parseInt leading-whitespace trim. -/
def jsWhitespace (c : Char) : Bool :=
  c = ' ' || c = '\t' || c = '\n' || c = '\r' || c = '\x0b' || c = '\x0c'

/-- Digits of a character list, interpreted in base 10. -/
def digitsToNat (cs : List Char) : Nat :=
  cs.foldl (fun acc c => acc * 10 + (c.toNat - '0'.toNat)) 0

/-- JS parseInt(s, 10): skip leading whitespace, optional sign, then the
maximal digit prefix; none models the NaN result when no digit follows. -/
def parseIntJs (s : String) : Option Int :=
  let cs := s.toList.dropWhile jsWhitespace
  let signed : Bool × List Char :=
    match cs with
    | '-' :: rest => (true, rest)
    | '+' :: rest => (false, rest)
    | _ => (false, cs)
  let digits := signed.2.takeWhile Char.isDigit
  if digits.isEmpty then none
  else
    let n : Int := (digitsToNat digits : Nat)
    some (if signed.1 then -n else n)

/-- Little-endian 2-byte encoding, as DataView.setUint16 stores it. -/
def le16 (v : Nat) : List Nat := [v % 256, v / 256 % 256]

/-- Little-endian 4-byte encoding, as DataView.setUint32 stores it. -/
def le32 (v : Nat) : List Nat :=
  [v % 256, v / 256 % 256, v / 65536 % 256, v / 16777216 % 256]

/-- Little-endian 8-byte encoding, as the source's setBigUint64 helper
stores it (low 32 bits, then the floor of value / 2^32, as two LE words). -/
def le64 (v : Nat) : List Nat := le32 (v % 4294967296) ++ le32 (v / 4294967296)

/-- UTF-8 encoding of one character (what TextEncoder emits per code point). -/
def utf8EncodeChar (c : Char) : List Nat :=
  let n := c.toNat
  if n < 0x80 then [n]
  else if n < 0x800 then [0xc0 + n / 64, 0x80 + n % 64]
  else if n < 0x10000 then [0xe0 + n / 4096, 0x80 + n / 64 % 64, 0x80 + n % 64]
  else [0xf0 + n / 262144, 0x80 + n / 4096 % 64, 0x80 + n / 64 % 64, 0x80 + n % 64]

/-- UTF-8 bytes of a string (TextEncoder.encode). -/
def utf8Bytes (s : String) : List Nat := s.toList.flatMap utf8EncodeChar

/-! ## ome-xml.ts: data model and the plane-to-IFD index -/

/-- The six valid OME DimensionOrder values (ome-xml.ts). -/
inductive DimensionOrder where
  | XYZCT | XYZTC | XYCTZ | XYCZT | XYTCZ | XYTZC
deriving DecidableEq, Repr

/-- One of the three dimensions named by the DimensionOrder tail. -/
inductive CztDim where
  | Z | C | T
deriving DecidableEq, Repr

/-- The tail of the DimensionOrder string after the XY marker, listed
fastest to slowest (dimensionOrder.slice(2) in write.ts). -/
def DimensionOrder.tail : DimensionOrder → CztDim × CztDim × CztDim
  | .XYZCT => (.Z, .C, .T)
  | .XYZTC => (.Z, .T, .C)
  | .XYCTZ => (.C, .T, .Z)
  | .XYCZT => (.C, .Z, .T)
  | .XYTCZ => (.T, .C, .Z)
  | .XYTZC => (.T, .Z, .C)

/-- Parsed OME-XML TiffData entry (ome-xml.ts TiffDataEntry). -/
structure TiffDataEntry where
  firstC : Nat
  firstZ : Nat
  firstT : Nat
  ifd : Nat
  planeCount : Nat
  uuid : Option String
  fileName : Option String
deriving DecidableEq, Repr

/-- Parsed OME channel metadata (ome-xml.ts OmeChannel). -/
structure OmeChannel where
  id : String
  name : Option String
  samplesPerPixel : Nat
  color : Option Int
deriving DecidableEq, Repr

/-- Parsed OME-XML Pixels metadata (ome-xml.ts OmePixels).  The physical
size attributes are carried as the raw attribute text: the source stores
them as parseFloat results, and no modelled code path consumes the numeric
value. -/
structure OmePixels where
  sizeX : Nat
  sizeY : Nat
  sizeZ : Nat
  sizeC : Nat
  sizeT : Nat
  dimensionOrder : DimensionOrder
  type : String
  physicalSizeX : Option String
  physicalSizeY : Option String
  physicalSizeZ : Option String
  bigEndian : Bool
  interleaved : Bool
  channels : List OmeChannel
  tiffData : List TiffDataEntry
deriving DecidableEq, Repr

/-- Compute the IFD index for a (c, z, t) selection within an OME image
based on the DimensionOrder (ome-xml.ts getIfdIndex). -/
def getIfdIndex (c z t : Nat) (pixels : OmePixels) : Nat :=
  match pixels.dimensionOrder with
  | .XYZCT => z + pixels.sizeZ * c + pixels.sizeZ * pixels.sizeC * t
  | .XYZTC => z + pixels.sizeZ * t + pixels.sizeZ * pixels.sizeT * c
  | .XYCTZ => c + pixels.sizeC * t + pixels.sizeC * pixels.sizeT * z
  | .XYCZT => c + pixels.sizeC * z + pixels.sizeC * pixels.sizeZ * t
  | .XYTCZ => t + pixels.sizeT * c + pixels.sizeT * pixels.sizeC * z
  | .XYTZC => t + pixels.sizeT * z + pixels.sizeT * pixels.sizeZ * c

/-- Index variable selected by a dimension name, following the spec text:
i_k is the value of the index variable named d_k.  This is the spec-side
formula used to compare against the source's getIfdIndex. -/
def cztIndex (c z t : Nat) : CztDim → Nat
  | .Z => z
  | .C => c
  | .T => t

/-- Dimension size selected by a dimension name for an OmePixels. -/
def OmePixels.sizeOf3 (p : OmePixels) : CztDim → Nat
  | .Z => p.sizeZ
  | .C => p.sizeC
  | .T => p.sizeT

/-- Spec-side linear index: i0 + size(d0) * i1 + size(d0) * size(d1) * i2
where d0, d1, d2 name the DimensionOrder tail fastest to slowest.  Written
from the spec sentence, for comparison with getIfdIndex. -/
def specLinearIndex (c z t : Nat) (p : OmePixels) : Nat :=
  let d := p.dimensionOrder.tail
  cztIndex c z t d.1 + p.sizeOf3 d.1 * cztIndex c z t d.2.1 +
    p.sizeOf3 d.1 * p.sizeOf3 d.2.1 * cztIndex c z t d.2.2

/-! ## write.ts: the inverse decomposition -/

/-- A selection identifying a single 2D plane (ifd-indexer.ts
PlaneSelection; also the result shape of write.ts ifdIndexToPlane). -/
structure PlaneSelection where
  c : Nat
  z : Nat
  t : Nat
deriving DecidableEq, Repr

/-- Dimension info extracted from a Multiscales (ome-xml-writer.ts
DimensionInfo; physical sizes omitted here, they are not consumed by
ifdIndexToPlane). -/
structure DimensionInfo where
  sizeX : Nat
  sizeY : Nat
  sizeZ : Nat
  sizeC : Nat
  sizeT : Nat
deriving DecidableEq, Repr

/-- Dimension size selected by a dimension name (the sizeMap record in
write.ts ifdIndexToPlane). -/
def DimensionInfo.sizeMap (dims : DimensionInfo) : CztDim → Nat
  | .Z => dims.sizeZ
  | .C => dims.sizeC
  | .T => dims.sizeT

/-- Map a linear IFD index back to (c, z, t) based on DimensionOrder
(write.ts ifdIndexToPlane).  The JS builds a record keyed by the order
characters and reads C, Z, T back with a 0 default; the resultAt function
mirrors that record. -/
def ifdIndexToPlane (ifdIdx : Nat) (dims : DimensionInfo)
    (dimensionOrder : DimensionOrder) : PlaneSelection :=
  let ord := dimensionOrder.tail
  let s0 := dims.sizeMap ord.1
  let s1 := dims.sizeMap ord.2.1
  let d0 := ifdIdx % s0
  let d1 := ifdIdx / s0 % s1
  let d2 := ifdIdx / (s0 * s1)
  let resultAt : CztDim → Nat := fun d =>
    if d = ord.1 then d0 else if d = ord.2.1 then d1
    else if d = ord.2.2 then d2 else 0
  { c := resultAt .C, z := resultAt .Z, t := resultAt .T }

/-! ## ome-xml.ts: multi-file TiffData filtering -/

/-- Result of filtering an OmePixels to the planes of the current file
(ome-xml.ts FilteredPixels).  The JS Map from local "c,z,t" keys to IFD
indices is modelled as an insertion-ordered association list. -/
structure FilteredPixels where
  pixels : OmePixels
  ifdMap : List (String × Nat)
deriving DecidableEq, Repr

/-- The local-entry test of filterPixelsForFile: an entry belongs to the
current file when its uuid is absent (or empty, which is falsy in JS) or
equals the root UUID. -/
def isLocalEntry (rootUuid : Option String) (e : TiffDataEntry) : Bool :=
  match e.uuid with
  | none => true
  | some u => u = "" || rootUuid = some u

/-- Append x if not already present (JS Set insertion). -/
def insertUnique (acc : List Nat) (x : Nat) : List Nat :=
  if x ∈ acc then acc else acc ++ [x]

/-- Unique values of a list sorted ascending: the JS spread of a Set
followed by a numeric sort. -/
def sortedUnique (xs : List Nat) : List Nat :=
  (xs.foldl insertUnique []).insertionSort (· ≤ ·)

/-- JS Map.set on an insertion-ordered association list: replace in place
if the key exists, append otherwise. -/
def mapSet (m : List (String × Nat)) (k : String) (v : Nat) :
    List (String × Nat) :=
  if m.any (fun kv => kv.1 = k) then
    m.map (fun kv => if kv.1 = k then (k, v) else kv)
  else m ++ [(k, v)]

/-- The "c,z,t" key strings used by the IFD lookup map. -/
def cztKey (c z t : Nat) : String :=
  Nat.repr c ++ "," ++ Nat.repr z ++ "," ++ Nat.repr t

/-- Filter an OmePixels to the planes present in the current file
(ome-xml.ts filterPixelsForFile).  Returns none when no filtering is
needed: no TiffData entries, or every entry local. -/
def filterPixelsForFile (pixels : OmePixels) (rootUuid : Option String) :
    Option FilteredPixels :=
  let tiffData := pixels.tiffData
  if tiffData.length = 0 then none
  else
    let localEntries := tiffData.filter (isLocalEntry rootUuid)
    if localEntries.length = tiffData.length then none
    else
      let sortedC := sortedUnique (localEntries.map (·.firstC))
      let sortedZ := sortedUnique (localEntries.map (·.firstZ))
      let sortedT := sortedUnique (localEntries.map (·.firstT))
      let ifdMap := localEntries.foldl
        (fun m e =>
          mapSet m
            (cztKey (sortedC.indexOf e.firstC) (sortedZ.indexOf e.firstZ)
              (sortedT.indexOf e.firstT))
            e.ifd)
        []
      let localChannels := sortedC.map (fun globalC =>
        match pixels.channels.get? globalC with
        | some ch => ch
        | none =>
          { id := "Channel:0:" ++ Nat.repr globalC, name := none,
            samplesPerPixel := 1, color := none })
      some
        { pixels :=
            { pixels with
              sizeC := sortedC.length, sizeZ := sortedZ.length,
              sizeT := sortedT.length, channels := localChannels,
              tiffData := localEntries },
          ifdMap := ifdMap }

/-- Concrete OmePixels for scenario S5: 40 TiffData entries, 20 local for
channel 0 (IFD t) and 20 remote for channel 1. -/
def s5Pixels : OmePixels :=
  { sizeX := 64, sizeY := 64, sizeZ := 1, sizeC := 2, sizeT := 20,
    dimensionOrder := .XYZCT, type := "uint16",
    physicalSizeX := none, physicalSizeY := none, physicalSizeZ := none,
    bigEndian := false, interleaved := false,
    channels :=
      [{ id := "Channel:0:0", name := none, samplesPerPixel := 1, color := none },
       { id := "Channel:0:1", name := none, samplesPerPixel := 1, color := none }],
    tiffData :=
      (List.range 20).map (fun t =>
        { firstC := 0, firstZ := 0, firstT := t, ifd := t, planeCount := 1,
          uuid := some "urn:uuid:local", fileName := some "a.ome.tif" }) ++
      (List.range 20).map (fun t =>
        { firstC := 1, firstZ := 0, firstT := t, ifd := 20 + t, planeCount := 1,
          uuid := some "urn:uuid:remote", fileName := some "b.ome.tif" }) }

/-- Expected filterPixelsForFile result for s5Pixels with the local root
UUID. -/
def s5Expected : FilteredPixels :=
  { pixels :=
      { s5Pixels with
        sizeC := 1, sizeZ := 1, sizeT := 20,
        channels :=
          [{ id := "Channel:0:0", name := none, samplesPerPixel := 1,
             color := none }],
        tiffData :=
          (List.range 20).map (fun t =>
            { firstC := 0, firstZ := 0, firstT := t, ifd := t, planeCount := 1,
              uuid := some "urn:uuid:local", fileName := some "a.ome.tif" }) },
    ifdMap := (List.range 20).map (fun t => (cztKey 0 0 t, t)) }

/-- Concrete OmePixels for scenario S4: DimensionOrder XYTZC with sizes
sizeZ = 2, sizeC = 3, sizeT = 2. -/
def s4Pixels : OmePixels :=
  { sizeX := 4, sizeY := 4, sizeZ := 2, sizeC := 3, sizeT := 2,
    dimensionOrder := .XYTZC, type := "uint16",
    physicalSizeX := none, physicalSizeY := none, physicalSizeZ := none,
    bigEndian := false, interleaved := false,
    channels := [], tiffData := [] }

/-! ## tiff-writer.ts: constants, tags, tiles -/

def TIFF_TYPE_BYTE : Nat := 1
def TIFF_TYPE_ASCII : Nat := 2
def TIFF_TYPE_SHORT : Nat := 3
def TIFF_TYPE_LONG : Nat := 4
def TIFF_TYPE_RATIONAL : Nat := 5
def TIFF_TYPE_LONG8 : Nat := 16

/-- The TYPE_SIZES lookup table; none models a missing record entry. -/
def typeSizeOf : Nat → Option Nat
  | 1 => some 1
  | 2 => some 1
  | 3 => some 2
  | 4 => some 4
  | 5 => some 8
  | 16 => some 8
  | _ => none

def TAG_NEW_SUBFILE_TYPE : Nat := 254
def TAG_IMAGE_WIDTH : Nat := 256
def TAG_IMAGE_LENGTH : Nat := 257
def TAG_BITS_PER_SAMPLE : Nat := 258
def TAG_COMPRESSION : Nat := 259
def TAG_PHOTOMETRIC : Nat := 262
def TAG_IMAGE_DESCRIPTION : Nat := 270
def TAG_STRIP_OFFSETS : Nat := 273
def TAG_SAMPLES_PER_PIXEL : Nat := 277
def TAG_ROWS_PER_STRIP : Nat := 278
def TAG_STRIP_BYTE_COUNTS : Nat := 279
def TAG_PLANAR_CONFIGURATION : Nat := 284
def TAG_TILE_WIDTH : Nat := 322
def TAG_TILE_LENGTH : Nat := 323
def TAG_TILE_OFFSETS : Nat := 324
def TAG_TILE_BYTE_COUNTS : Nat := 325
def TAG_SUB_IFDS : Nat := 330
def TAG_SAMPLE_FORMAT : Nat := 339

def COMPRESSION_NONE : Nat := 1
def COMPRESSION_DEFLATE : Nat := 8

def DEFAULT_TILE_SIZE : Nat := 256

/-- Tag payload: numeric value list or an ASCII string. -/
inductive TagValues where
  | nums (values : List Nat)
  | ascii (s : String)
deriving DecidableEq, Repr

/-- A single TIFF tag entry (tiff-writer.ts TiffTag). -/
structure TiffTag where
  tag : Nat
  type : Nat
  values : TagValues
deriving DecidableEq, Repr

/-- The compression option strings "none" / "deflate". -/
inductive CompressionOpt where
  | compNone | compDeflate
deriving DecidableEq, Repr

/-- The format option strings "auto" / "classic" / "bigtiff". -/
inductive FormatOpt where
  | auto | classic | bigtiff
deriving DecidableEq, Repr

/-- One IFD to be written (tiff-writer.ts WritableIfd); subIfds is an
Option since the source distinguishes an absent field from an empty
array. -/
inductive WritableIfd where
  | mk (tags : List TiffTag) (tiles : List (List Nat))
      (subIfds : Option (List WritableIfd))
deriving Repr

def WritableIfd.tags : WritableIfd → List TiffTag
  | .mk t _ _ => t

def WritableIfd.tiles : WritableIfd → List (List Nat)
  | .mk _ t _ => t

def WritableIfd.subIfds : WritableIfd → Option (List WritableIfd)
  | .mk _ _ s => s

/-- Create the standard tag set for a grayscale plane (tiff-writer.ts
makeImageTags, the tiled-capable version).  The sequence of push calls is
modelled as list concatenation in the same order. -/
def makeImageTags (width height bitsPerSample sampleFormat : Nat)
    (compression : CompressionOpt) (imageDescription : Option String)
    (isSubResolution : Bool) (tileSize : Nat) : List TiffTag :=
  (if isSubResolution then
    [{ tag := TAG_NEW_SUBFILE_TYPE, type := TIFF_TYPE_LONG, values := .nums [1] }]
  else []) ++
  [{ tag := TAG_IMAGE_WIDTH, type := TIFF_TYPE_LONG, values := .nums [width] },
   { tag := TAG_IMAGE_LENGTH, type := TIFF_TYPE_LONG, values := .nums [height] },
   { tag := TAG_BITS_PER_SAMPLE, type := TIFF_TYPE_SHORT,
     values := .nums [bitsPerSample] },
   { tag := TAG_COMPRESSION, type := TIFF_TYPE_SHORT,
     values := .nums
       [if compression = .compDeflate then COMPRESSION_DEFLATE
        else COMPRESSION_NONE] },
   { tag := TAG_PHOTOMETRIC, type := TIFF_TYPE_SHORT, values := .nums [1] },
   { tag := TAG_SAMPLES_PER_PIXEL, type := TIFF_TYPE_SHORT, values := .nums [1] },
   { tag := TAG_PLANAR_CONFIGURATION, type := TIFF_TYPE_SHORT,
     values := .nums [1] },
   { tag := TAG_SAMPLE_FORMAT, type := TIFF_TYPE_SHORT,
     values := .nums [sampleFormat] }] ++
  (if 0 < tileSize ∧ (tileSize < width ∨ tileSize < height) then
    [{ tag := TAG_TILE_WIDTH, type := TIFF_TYPE_LONG, values := .nums [tileSize] },
     { tag := TAG_TILE_LENGTH, type := TIFF_TYPE_LONG, values := .nums [tileSize] }]
  else
    [{ tag := TAG_ROWS_PER_STRIP, type := TIFF_TYPE_LONG, values := .nums [height] }]) ++
  (match imageDescription with
   | some d =>
     [{ tag := TAG_IMAGE_DESCRIPTION, type := TIFF_TYPE_ASCII, values := .ascii d }]
   | none => [])

/-- Slice a 2D pixel plane into zero-padded tiles in row-major tile order
(tiff-writer.ts sliceTiles).  Math.ceil(a / b) is (a + b - 1) / b in Nat
for b at least 1; subarray is drop-then-take; the row copy loop is a fold
of in-bounds writes into an initially zero tile. -/
def sliceTiles (planeBytes : List Nat)
    (width height bytesPerPixel tileW tileH : Nat) : List (List Nat) :=
  let tilesX := (width + tileW - 1) / tileW
  let tilesY := (height + tileH - 1) / tileH
  let rowBytes := width * bytesPerPixel
  let tileRowBytes := tileW * bytesPerPixel
  let tileBytes := tileW * tileH * bytesPerPixel
  (List.range tilesY).flatMap fun ty =>
    (List.range tilesX).map fun tx =>
      let startY := ty * tileH
      let startX := tx * tileW
      let validRows := min tileH (height - startY)
      let validCols := min tileW (width - startX)
      let validRowBytes := validCols * bytesPerPixel
      (List.range validRows).foldl
        (fun tile row =>
          writeBytes tile (row * tileRowBytes)
            ((planeBytes.drop
                ((startY + row) * rowBytes + startX * bytesPerPixel)).take
              validRowBytes))
        (List.replicate tileBytes 0)

/-- Slice a plane into tiles or return it as a single strip, deciding by
tile size (write.ts slicePlane). -/
def slicePlane (planeBytes : List Nat) (width height bpe tileSize : Nat) :
    List (List Nat) :=
  if 0 < tileSize ∧ (tileSize < width ∨ tileSize < height) then
    sliceTiles planeBytes width height bpe tileSize tileSize
  else [planeBytes]


/-! ## utils.ts: store key parsing -/

/-- Result of parsing a zarr store key (utils.ts ParsedKey).  The level is
an Int because the source uses -1 as the rejected sentinel. -/
structure ParsedKey where
  level : Int
  isMetadata : Bool
  isRootMetadata : Bool
  chunkIndices : Option (List Int)
deriving DecidableEq, Repr

/-- The rejected parse, shared by every failure branch of parseStoreKey. -/
def rejectedKey : ParsedKey :=
  { level := -1, isMetadata := false, isRootMetadata := false,
    chunkIndices := none }

/-- Split a character list at every occurrence of sep, keeping empty
groups, exactly as the JS String.split of a one-character separator. -/
def splitOnChar (sep : Char) : List Char → List (List Char)
  | [] => [[]]
  | c :: rest =>
    match splitOnChar sep rest with
    | [] => [[]]
    | g :: gs => if c = sep then [] :: g :: gs else (c :: g) :: gs

/-- JS split("/") on a string. -/
def jsSplitSlash (s : String) : List String :=
  (splitOnChar '/' s.toList).map (fun cs => String.mk cs)

/-- Parse a zarr store key (utils.ts parseStoreKey).  jsSplitSlash models
the JS split("/"); the integer components use the JS parseInt semantics of
parseIntJs, whose none result models NaN; the leading-slash strip tests the
first character, as startsWith("/") does. -/
def normalizeKey (key : String) : String :=
  match key.toList with
  | '/' :: rest => String.mk rest
  | _ => key

def parseStoreKey (key : String) : ParsedKey :=
  let normalized := normalizeKey key
  if normalized = "zarr.json" then
    { level := -1, isMetadata := true, isRootMetadata := true,
      chunkIndices := none }
  else
    let parts := jsSplitSlash normalized
    if parts.length = 2 ∧ parts.getD 1 "" = "zarr.json" then
      match parseIntJs (parts.getD 0 "") with
      | none => rejectedKey
      | some level =>
        { level := level, isMetadata := true, isRootMetadata := false,
          chunkIndices := none }
    else if 3 ≤ parts.length ∧ parts.getD 1 "" = "c" then
      match parseIntJs (parts.getD 0 "") with
      | none => rejectedKey
      | some level =>
        let chunkIndices := (parts.drop 2).map parseIntJs
        if chunkIndices.any Option.isNone then rejectedKey
        else
          { level := level, isMetadata := false, isRootMetadata := false,
            chunkIndices := some (chunkIndices.map (fun o => o.getD 0)) }
    else rejectedKey


/-! ## dtypes.ts -/

/-- Zarr v3 numeric data type strings (dtypes.ts ZarrDataType). -/
inductive ZarrDataType where
  | int8 | int16 | int32 | uint8 | uint16 | uint32 | float32 | float64
deriving DecidableEq, Repr

/-- Bytes per element for a Zarr data type (dtypes.ts bytesPerElement). -/
def bytesPerElement : ZarrDataType → Nat
  | .int8 => 1
  | .uint8 => 1
  | .int16 => 2
  | .uint16 => 2
  | .int32 => 4
  | .uint32 => 4
  | .float32 => 4
  | .float64 => 8

/-! ## utils.ts: pixel windows and chunk byte encoding -/

/-- Compute the pixel window of a chunk (utils.ts computePixelWindow).
Int models the JS numbers, which could go negative for hostile chunk
indices. -/
def computePixelWindow (chunkX chunkY chunkWidth chunkHeight imageWidth
    imageHeight : Int) : Int × Int × Int × Int :=
  let left := chunkX * chunkWidth
  let top := chunkY * chunkHeight
  let right := min (left + chunkWidth) imageWidth
  let bottom := min (top + chunkHeight) imageHeight
  (left, top, right, bottom)

/-- Encode chunk data, zero padding to the expected size when needed
(utils.ts encodeChunkBytes).  The JS compares byteLength divided by
bytesPerElement against expectedElements over the reals, which for a
positive element width is the same as comparing byteLength against
expectedElements times bytesPerElement. -/
def encodeChunkBytes (data : List Nat) (expectedElements bytesPerEl : Nat) :
    List Nat :=
  if data.length = expectedElements * bytesPerEl then data
  else writeBytes (List.replicate (expectedElements * bytesPerEl) 0) 0 data

/-- Pad an edge chunk row by row into a full-size zero buffer
(chunk-reader.ts padEdgeChunk). -/
def padEdgeChunk (data : List Nat)
    (srcWidth srcHeight dstWidth dstHeight bytesPerEl : Nat) : List Nat :=
  let srcRowBytes := srcWidth * bytesPerEl
  let dstRowBytes := dstWidth * bytesPerEl
  (List.range srcHeight).foldl
    (fun output row =>
      writeBytes output (row * dstRowBytes)
        ((data.drop (row * srcRowBytes)).take srcRowBytes))
    (List.replicate (dstWidth * dstHeight * bytesPerEl) 0)

/-- Chunk shape for given tile dimensions: ones with tileHeight and
tileWidth in the last two slots (utils.ts computeChunkShape).  For ndim
below 2 the JS writes to a negative array index, a no-op; Nat subtraction
clamps both indices to 0 and the later tileWidth write wins, which agrees
with the JS result there as well. -/
def computeChunkShape (tileWidth tileHeight ndim : Nat) : List Nat :=
  ((List.replicate ndim 1).set (ndim - 2) tileHeight).set (ndim - 1) tileWidth

/-! ## chunk-reader.ts -/

/-- A plane selection as the read facade builds it from parsed chunk-key
indices.  The source reuses one untyped record for writer and reader; the
reader side is modelled with Int fields since store keys parse to signed
integers. -/
structure JsPlaneSelection where
  c : Int
  z : Int
  t : Int
deriving DecidableEq, Repr

/-- The raster oracle: what geotiff readRasters returns, as raw bytes, for
a window request routed through the IFD indexer.  Arguments: selection,
level, then the window left, top, right, bottom. -/
def RasterFn : Type :=
  JsPlaneSelection → Nat → Int → Int → Int → Int → List Nat

/-- Read one chunk from a TIFF image (chunk-reader.ts readChunk).  The
getImage-plus-readRasters collaboration with geotiff is modelled by the
raster oracle. -/
def readChunk (raster : RasterFn) (sel : JsPlaneSelection) (level : Nat)
    (chunkY chunkX : Int) (chunkHeight chunkWidth imageWidth imageHeight : Nat)
    (dtype : ZarrDataType) : List Nat :=
  let w := computePixelWindow chunkX chunkY chunkWidth chunkHeight
    imageWidth imageHeight
  let left := w.1
  let top := w.2.1
  let right := w.2.2.1
  let bottom := w.2.2.2
  let windowWidth := right - left
  let windowHeight := bottom - top
  if windowWidth ≤ 0 ∨ windowHeight ≤ 0 then
    List.replicate (chunkWidth * chunkHeight * bytesPerElement dtype) 0
  else
    let pixelData := raster sel level left top right bottom
    let bpe := bytesPerElement dtype
    let expectedElements := chunkWidth * chunkHeight
    if windowWidth < (chunkWidth : Int) ∨ windowHeight < (chunkHeight : Int) then
      padEdgeChunk pixelData windowWidth.toNat windowHeight.toNat
        chunkWidth chunkHeight bpe
    else encodeChunkBytes pixelData expectedElements bpe

/-! ## metadata.ts: Zarr v3 documents -/

/-- An OME-Zarr axis descriptor (metadata.ts OmeAxis). -/
structure OmeAxis where
  name : String
  type : String
  unit : Option String
deriving Repr

/-- A coordinate transformation (metadata.ts OmeCoordinateTransformation). -/
structure OmeCoordinateTransformation where
  type : String
  scale : Option (List Float)
  translation : Option (List Float)
deriving Repr

/-- A dataset entry of the multiscale (metadata.ts OmeDataset). -/
structure OmeDataset where
  path : String
  coordinateTransformations : List OmeCoordinateTransformation
deriving Repr

/-- The multiscale block (metadata.ts OmeMultiscale). -/
structure OmeMultiscale where
  name : Option String
  axes : List OmeAxis
  datasets : List OmeDataset
deriving Repr

/-- An omero display window; the JS object fields start, end, min, max are
endV, minV, maxV here since end is a Lean keyword. -/
structure OmeroWindow where
  start : Float
  endV : Float
  minV : Float
  maxV : Float
deriving Repr

/-- Omero channel display hints (metadata.ts OmeroChannel). -/
structure OmeroChannel where
  active : Bool
  color : String
  label : String
  window : OmeroWindow
deriving Repr

/-- Omero rendering defaults (the rdefs object literal). -/
structure OmeroRdefs where
  defaultT : Nat
  defaultZ : Nat
  model : String
deriving Repr

/-- Omero display metadata (metadata.ts OmeroMetadata). -/
structure OmeroMetadata where
  channels : List OmeroChannel
  rdefs : OmeroRdefs
deriving Repr

/-- The attributes.ome object of the root group document. -/
structure OmeAttributes where
  version : String
  multiscales : List OmeMultiscale
  omero : Option OmeroMetadata
deriving Repr

/-- Zarr v3 group zarr.json (metadata.ts ZarrGroupMetadata); the dynamic
attributes record is the ome block the builder stores in it. -/
structure ZarrGroupMetadata where
  zarr_format : Nat
  node_type : String
  ome : OmeAttributes
deriving Repr

/-- Zarr v3 array zarr.json (metadata.ts ZarrArrayMetadata), with the
nested object literals flattened: chunk_shape is
chunk_grid.configuration.chunk_shape, separator is
chunk_key_encoding.configuration.separator, codecName and codecEndian are
the single bytes codec entry. -/
structure ZarrArrayMetadata where
  zarr_format : Nat
  node_type : String
  shape : List Nat
  data_type : ZarrDataType
  chunk_shape : List Nat
  separator : String
  fill_value : Nat
  codecName : String
  codecEndian : String
  dimension_names : List String
deriving Repr

/-- Generate the root group zarr.json (metadata.ts buildRootGroupJson). -/
def buildRootGroupJson (multiscale : OmeMultiscale)
    (omero : Option OmeroMetadata) : ZarrGroupMetadata :=
  { zarr_format := 3, node_type := "group",
    ome := { version := "0.5", multiscales := [multiscale], omero := omero } }

/-- Generate an array-level zarr.json (metadata.ts buildArrayJson). -/
def buildArrayJson (shape chunkShape : List Nat) (dtype : ZarrDataType)
    (dimNames : List String) : ZarrArrayMetadata :=
  { zarr_format := 3, node_type := "array", shape := shape,
    data_type := dtype, chunk_shape := chunkShape, separator := "/",
    fill_value := 0, codecName := "bytes", codecEndian := "little",
    dimension_names := dimNames }

/-! ## tiff-store.ts: the key-addressed store facade -/

/-- The immutable part of a TiffStore: the fields its constructor stores,
with the two external collaborators (JSON serialisation by the runtime,
pixel reads by geotiff through the indexer) as function parameters. -/
structure TiffStoreModel where
  levels : Nat
  dimNames : List String
  shapes : List (List Nat)
  chunkShapes : List (List Nat)
  dtype : ZarrDataType
  multiscale : OmeMultiscale
  omero : Option OmeroMetadata
  stringifyGroup : ZarrGroupMetadata → List Nat
  stringifyArray : ZarrArrayMetadata → List Nat
  raster : RasterFn

/-- The mutable cache fields of a TiffStore: the serialised root document
and the per-level array document cache, as an insertion-ordered
association list like the JS Map. -/
structure StoreState where
  rootJsonBytes : Option (List Nat)
  arrayJsonCache : List (Nat × List Nat)
deriving DecidableEq, Repr

/-- JS Map.get on the cache list. -/
def lookupCache (m : List (Nat × List Nat)) (k : Nat) : Option (List Nat) :=
  match m.find? (fun kv => kv.1 = k) with
  | some kv => some kv.2
  | none => none

/-- Serve the root group document, memoised (tiff-store.ts
getRootGroupJson). -/
def TiffStoreModel.getRootGroupJson (store : TiffStoreModel)
    (st : StoreState) : List Nat × StoreState :=
  match st.rootJsonBytes with
  | some b => (b, st)
  | none =>
    let b := store.stringifyGroup
      (buildRootGroupJson store.multiscale store.omero)
    (b, { st with rootJsonBytes := some b })

/-- Serve a per-level array document, memoised (tiff-store.ts
getArrayJson). -/
def TiffStoreModel.getArrayJson (store : TiffStoreModel) (st : StoreState)
    (level : Int) : Option (List Nat) × StoreState :=
  if level < 0 ∨ (store.levels : Int) ≤ level then (none, st)
  else
    let lv := level.toNat
    match lookupCache st.arrayJsonCache lv with
    | some b => (some b, st)
    | none =>
      let b := store.stringifyArray
        (buildArrayJson (store.shapes.getD lv []) (store.chunkShapes.getD lv [])
          store.dtype store.dimNames)
      (some b, { st with arrayJsonCache := st.arrayJsonCache ++ [(lv, b)] })

/-- Map chunk indices to a plane selection (tiff-store.ts
indicesToSelection); positions beyond the index list, undefined in JS,
default to 0 here and are excluded by the facade contract. -/
def TiffStoreModel.indicesToSelection (store : TiffStoreModel)
    (chunkIndices : List Int) : JsPlaneSelection :=
  (List.range store.dimNames.length).foldl
    (fun sel i =>
      let dim := store.dimNames.getD i ""
      if dim = "t" then { sel with t := chunkIndices.getD i 0 }
      else if dim = "c" then { sel with c := chunkIndices.getD i 0 }
      else if dim = "z" then { sel with z := chunkIndices.getD i 0 }
      else sel)
    { c := 0, z := 0, t := 0 }

/-- Serve a chunk (tiff-store.ts getChunkData).  List.indexOf returns the
list length for a missing name where JS indexOf returns -1; both are
excluded by the store construction, which always places y and x last. -/
def TiffStoreModel.getChunkData (store : TiffStoreModel) (level : Int)
    (chunkIndices : List Int) : Option (List Nat) :=
  if level < 0 ∨ (store.levels : Int) ≤ level then none
  else
    let lv := level.toNat
    let sel := store.indicesToSelection chunkIndices
    let shape := store.shapes.getD lv []
    let chunkShape := store.chunkShapes.getD lv []
    let yIdx := store.dimNames.indexOf "y"
    let xIdx := store.dimNames.indexOf "x"
    let chunkY := chunkIndices.getD yIdx 0
    let chunkX := chunkIndices.getD xIdx 0
    let imageWidth := shape.getD xIdx 0
    let imageHeight := shape.getD yIdx 0
    let chunkWidth := chunkShape.getD xIdx 0
    let chunkHeight := chunkShape.getD yIdx 0
    some (readChunk store.raster sel lv chunkY chunkX chunkHeight chunkWidth
      imageWidth imageHeight store.dtype)

/-- The AsyncReadable get method (tiff-store.ts TiffStore.get), returning
the served bytes (none for unknown keys) and the updated cache state. -/
def TiffStoreModel.get (store : TiffStoreModel) (st : StoreState)
    (key : String) : Option (List Nat) × StoreState :=
  let parsed := parseStoreKey key
  if parsed.isRootMetadata then
    let r := store.getRootGroupJson st
    (some r.1, r.2)
  else if parsed.isMetadata ∧ 0 ≤ parsed.level then
    store.getArrayJson st parsed.level
  else
    match parsed.chunkIndices with
    | some idxs =>
      if 0 ≤ parsed.level then (store.getChunkData parsed.level idxs, st)
      else (none, st)
    | none => (none, st)

/-! ## tiff-writer.ts: serialising a file (the tiled/BigTIFF writer) -/

/-- A tag resolved to its byte representation (tiff-writer.ts
ResolvedTag). -/
structure ResolvedTag where
  tag : Nat
  type : Nat
  count : Nat
  valueBytes : List Nat
deriving DecidableEq, Repr

/-- Format-dependent parameters (tiff-writer.ts TiffFormat). -/
structure TiffFormat where
  headerSize : Nat
  ifdEntrySize : Nat
  offsetSize : Nat
  inlineThreshold : Nat
  offsetType : Nat
  magic : Nat
deriving DecidableEq, Repr

def CLASSIC_FORMAT : TiffFormat :=
  { headerSize := 8, ifdEntrySize := 12, offsetSize := 4,
    inlineThreshold := 4, offsetType := TIFF_TYPE_LONG, magic := 42 }

def BIGTIFF_FORMAT : TiffFormat :=
  { headerSize := 16, ifdEntrySize := 20, offsetSize := 8,
    inlineThreshold := 8, offsetType := TIFF_TYPE_LONG8, magic := 43 }

/-- Resolve a TiffTag to bytes (tiff-writer.ts resolveTag).  A string
payload becomes UTF-8 bytes plus a null terminator regardless of the
declared type.  For numeric payloads the value buffer is filled by the
source's typed write loop: BYTE/SHORT/LONG/LONG8 write each value at its
slot little-endian (so the buffer is the concatenation of the fixed-width
encodings); RATIONAL halves the count, so with an odd value list the last
DataView write falls past the buffer and throws a RangeError, modelled as
an error; a numeric payload under the ASCII type matches no switch case
and leaves the zero-initialised buffer untouched.  An unknown type
throws. -/
def resolveTag (t : TiffTag) : Except String ResolvedTag :=
  match t.values with
  | .ascii s =>
    let strBytes := utf8Bytes s
    let valueBytes := strBytes ++ [0]
    .ok { tag := t.tag, type := TIFF_TYPE_ASCII, count := valueBytes.length,
          valueBytes := valueBytes }
  | .nums values =>
    match typeSizeOf t.type with
    | none => .error "Unknown TIFF type"
    | some typeSize =>
      let count := if t.type = TIFF_TYPE_RATIONAL then values.length / 2
        else values.length
      if t.type = TIFF_TYPE_RATIONAL ∧ values.length % 2 = 1 then
        .error "RangeError"
      else
        let valueBytes :=
          if t.type = TIFF_TYPE_BYTE then values.map (fun v => v % 256)
          else if t.type = TIFF_TYPE_SHORT then values.flatMap le16
          else if t.type = TIFF_TYPE_LONG then values.flatMap le32
          else if t.type = TIFF_TYPE_LONG8 then values.flatMap le64
          else if t.type = TIFF_TYPE_RATIONAL then values.flatMap le32
          else List.replicate (count * typeSize) 0
        .ok { tag := t.tag, type := t.type, count := count,
              valueBytes := valueBytes }

def resolveTagList : List TiffTag → Except String (List ResolvedTag)
  | [] => .ok []
  | t :: ts =>
    match resolveTag t, resolveTagList ts with
    | .error e, _ => .error e
    | _, .error e => .error e
    | .ok r, .ok rs => .ok (r :: rs)

/-- IFD entry block size (tiff-writer.ts ifdEntryBlockSize). -/
def ifdEntryBlockSize (numTags : Nat) (fmt : TiffFormat) : Nat :=
  if fmt.magic = 42 then 2 + numTags * 12 + 4
  else 8 + numTags * 20 + 8

/-- Bytes of tag values that do not fit inline (tiff-writer.ts
overflowSize), with 2-byte alignment padding. -/
def overflowSize (tags : List ResolvedTag) (fmt : TiffFormat) : Nat :=
  tags.foldl
    (fun size t =>
      if fmt.inlineThreshold < t.valueBytes.length then
        size + t.valueBytes.length +
          (if t.valueBytes.length % 2 ≠ 0 then 1 else 0)
      else size)
    0

/-- Total tile data size (tiff-writer.ts totalTileSize). -/
def totalTileSize (tiles : List (List Nat)) : Nat :=
  tiles.foldl (fun sum t => sum + t.length) 0

/-- The deflate-compression pass over an IFD's tag list (tiff-writer.ts
processIfdAsync): the first Compression tag found is replaced, else one
is appended. -/
def setDeflateTag : List TiffTag → List TiffTag
  | [] => [{ tag := TAG_COMPRESSION, type := TIFF_TYPE_SHORT,
             values := .nums [COMPRESSION_DEFLATE] }]
  | t :: ts =>
    if t.tag = TAG_COMPRESSION then
      { tag := TAG_COMPRESSION, type := TIFF_TYPE_SHORT,
        values := .nums [COMPRESSION_DEFLATE] } :: ts
    else t :: setDeflateTag ts

mutual
/-- Compress tiles and adjust tags (tiff-writer.ts processIfdAsync); the
deflate codec is an external collaborator passed as a function. -/
def processIfd (deflate : List Nat → List Nat)
    (compression : CompressionOpt) : WritableIfd → WritableIfd
  | .mk tags tiles subIfds =>
    let tiles' := if compression = .compDeflate then tiles.map deflate
      else tiles
    let tags' := if compression = .compDeflate then setDeflateTag tags
      else tags
    let subIfds' :=
      match subIfds with
      | some subs => some (processIfdList deflate compression subs)
      | none => none
    .mk tags' tiles' subIfds'

def processIfdList (deflate : List Nat → List Nat)
    (compression : CompressionOpt) : List WritableIfd → List WritableIfd
  | [] => []
  | i :: is =>
    processIfd deflate compression i :: processIfdList deflate compression is
end

mutual
/-- One IFD's contribution to the size estimate (the loop body of
tiff-writer.ts estimateRawSize: 256 tag overhead plus tile bytes plus a
recursive estimate of the SubIFDs). -/
def estimateOne : WritableIfd → Nat
  | .mk _ tiles subIfds =>
    256 + totalTileSize tiles +
      (match subIfds with
       | some subs => 16 + estimateSum subs
       | none => 0)

def estimateSum : List WritableIfd → Nat
  | [] => 0
  | ifd :: rest => estimateOne ifd + estimateSum rest
end

/-- Estimated raw file size used for the BigTIFF auto-detection and the
classic-format size guard (tiff-writer.ts estimateRawSize). -/
def estimateRawSize (ifds : List WritableIfd) : Nat := 16 + estimateSum ifds

/-- An IFD with sizes resolved (tiff-writer.ts IfdInfo, without the
mutable placed back-pointer). -/
inductive IfdInfo where
  | mk (tags : List ResolvedTag) (tiles : List (List Nat))
      (subIfdInfos : List IfdInfo) (entryBlockSize overflow tileSize : Nat)
deriving Repr

def IfdInfo.tags : IfdInfo → List ResolvedTag
  | .mk t _ _ _ _ _ => t

def IfdInfo.tiles : IfdInfo → List (List Nat)
  | .mk _ t _ _ _ _ => t

def IfdInfo.subIfdInfos : IfdInfo → List IfdInfo
  | .mk _ _ s _ _ _ => s

def IfdInfo.entryBlockSize : IfdInfo → Nat
  | .mk _ _ _ e _ _ => e

def IfdInfo.overflow : IfdInfo → Nat
  | .mk _ _ _ _ o _ => o

def IfdInfo.tileSize : IfdInfo → Nat
  | .mk _ _ _ _ _ s => s

/-- An IFD with absolute offsets computed (tiff-writer.ts PlacedIfd);
the overflowSz field carries what the source calls overflowSize. -/
inductive PlacedIfd where
  | mk (ifdOffset : Nat) (tags : List ResolvedTag)
      (overflowOffset overflowSz tileDataOffset : Nat)
      (tiles : List (List Nat)) (subIfds : List PlacedIfd)
      (nextIfdOffset : Nat)
deriving Repr

def PlacedIfd.ifdOffset : PlacedIfd → Nat
  | .mk o _ _ _ _ _ _ _ => o

def PlacedIfd.tags : PlacedIfd → List ResolvedTag
  | .mk _ t _ _ _ _ _ _ => t

def PlacedIfd.overflowOffset : PlacedIfd → Nat
  | .mk _ _ o _ _ _ _ _ => o

def PlacedIfd.tileDataOffset : PlacedIfd → Nat
  | .mk _ _ _ _ o _ _ _ => o

def PlacedIfd.tiles : PlacedIfd → List (List Nat)
  | .mk _ _ _ _ _ t _ _ => t

def PlacedIfd.subIfds : PlacedIfd → List PlacedIfd
  | .mk _ _ _ _ _ _ s _ => s

def PlacedIfd.nextIfdOffset : PlacedIfd → Nat
  | .mk _ _ _ _ _ _ _ n => n

/-- Insertion of a resolved tag into a tag-sorted list, keeping earlier
elements first on ties (JS Array.prototype.sort is stable). -/
def insertByTag (x : ResolvedTag) : List ResolvedTag → List ResolvedTag
  | [] => [x]
  | y :: ys =>
    if x.tag ≤ y.tag then x :: y :: ys else y :: insertByTag x ys

/-- allTags.sort((a, b) => a.tag - b.tag) as a stable insertion sort. -/
def sortByTag (ts : List ResolvedTag) : List ResolvedTag :=
  ts.foldr insertByTag []

mutual
/-- Resolve one WritableIfd to its IfdInfo (the resolveIfdInfo closure in
tiff-writer.ts placeIfds): resolve user tags, append placeholder
offset/byte-count tags chosen by the presence of a TileWidth tag, append
a SubIFDs placeholder when SubIFDs exist, and sort by tag number. -/
def resolveIfdInfo (fmt : TiffFormat) : WritableIfd → Except String IfdInfo
  | .mk tags tiles subIfds =>
    match resolveTagList tags,
      (match subIfds with
       | some subs => resolveIfdInfoList fmt subs
       | none => .ok []) with
    | .error e, _ => .error e
    | _, .error e => .error e
    | .ok userTags, .ok subIfdInfos =>
      let hasTileWidth := tags.any (fun t => t.tag = TAG_TILE_WIDTH)
      let offsetTag := if hasTileWidth then TAG_TILE_OFFSETS
        else TAG_STRIP_OFFSETS
      let countTag := if hasTileWidth then TAG_TILE_BYTE_COUNTS
        else TAG_STRIP_BYTE_COUNTS
      let tileOffsetsTag : ResolvedTag :=
        { tag := offsetTag, type := fmt.offsetType, count := tiles.length,
          valueBytes := List.replicate (tiles.length * fmt.offsetSize) 0 }
      let tileByteCountsTag : ResolvedTag :=
        { tag := countTag, type := fmt.offsetType, count := tiles.length,
          valueBytes := tiles.flatMap
            (fun t => if fmt.offsetSize = 8 then le64 t.length
              else le32 t.length) }
      let allTags := userTags ++ [tileOffsetsTag, tileByteCountsTag] ++
        (if 0 < subIfdInfos.length then
          [{ tag := TAG_SUB_IFDS, type := fmt.offsetType,
             count := subIfdInfos.length,
             valueBytes :=
               List.replicate (subIfdInfos.length * fmt.offsetSize) 0 }]
        else [])
      let sorted := sortByTag allTags
      .ok (.mk sorted tiles subIfdInfos (ifdEntryBlockSize sorted.length fmt)
        (overflowSize sorted fmt) (totalTileSize tiles))

def resolveIfdInfoList (fmt : TiffFormat) :
    List WritableIfd → Except String (List IfdInfo)
  | [] => .ok []
  | i :: is =>
    match resolveIfdInfo fmt i, resolveIfdInfoList fmt is with
    | .error e, _ => .error e
    | _, .error e => .error e
    | .ok info, .ok infos => .ok (info :: infos)
end

mutual
/-- Place one IfdInfo at the cursor and its SubIFDs right after its tile
data (the placeIfdInfo closure in tiff-writer.ts placeIfds), returning
the placed IFD and the advanced cursor. -/
def placeOne : IfdInfo → Nat → PlacedIfd × Nat
  | .mk tags tiles subInfos entryBlockSize overflow tileSize, cursor =>
    let ifdOffset := cursor
    let overflowOffset := ifdOffset + entryBlockSize
    let tileDataOffset := overflowOffset + overflow
    let cursor2 := tileDataOffset + tileSize
    let r := placeList subInfos cursor2
    (.mk ifdOffset tags overflowOffset overflow tileDataOffset tiles r.1 0,
      r.2)

def placeList : List IfdInfo → Nat → List PlacedIfd × Nat
  | [], c => ([], c)
  | i :: is, c =>
    let p := placeOne i c
    let ps := placeList is p.2
    (p.1 :: ps.1, ps.2)
end

/-- Overwrite the next-IFD pointer (the mainPlaced[i].nextIfdOffset
mutation in tiff-writer.ts placeIfds). -/
def setNextIfdOffset : PlacedIfd → Nat → PlacedIfd
  | .mk a b c d e f g _, n => .mk a b c d e f g n

/-- Link each main-chain IFD to the offset of the next one. -/
def linkMain : List PlacedIfd → List PlacedIfd
  | [] => []
  | [p] => [p]
  | p :: q :: rest => setNextIfdOffset p q.ifdOffset :: linkMain (q :: rest)

mutual
/-- The allPlaced push order of tiff-writer.ts placeIfds: each IFD is
pushed before its SubIFDs are placed, so the flat list is a preorder. -/
def flattenPlaced : PlacedIfd → List PlacedIfd
  | .mk a b c d e f subs h =>
    .mk a b c d e f subs h :: flattenPlacedList subs

def flattenPlacedList : List PlacedIfd → List PlacedIfd
  | [] => []
  | p :: ps => flattenPlaced p ++ flattenPlacedList ps
end

/-- Resolve, place, and flatten all IFDs (tiff-writer.ts placeIfds).  In
the source the next-IFD pointers are patched after allPlaced is built,
through shared references; here the main chain is linked before
flattening. -/
def placeIfds (ifds : List WritableIfd) (fmt : TiffFormat) :
    Except String (List PlacedIfd) :=
  match resolveIfdInfoList fmt ifds with
  | .error e => .error e
  | .ok mainInfos =>
    let r := placeList mainInfos fmt.headerSize
    .ok (flattenPlacedList (linkMain r.1))

/-- Total file size (tiff-writer.ts computeTotalSize). -/
def computeTotalSize (placed : List PlacedIfd) (fmt : TiffFormat) : Nat :=
  match placed with
  | [] => fmt.headerSize
  | _ =>
    placed.foldl
      (fun maxEnd p => max maxEnd (p.tileDataOffset + totalTileSize p.tiles))
      fmt.headerSize

/-- Write the file header (tiff-writer.ts writeHeader): byte order "II",
then magic 42 with a 32-bit first-IFD offset, or magic 43 with the
BigTIFF offset-size/padding words and a 64-bit first-IFD offset. -/
def writeHeader (buf : List Nat) (fmt : TiffFormat)
    (firstIfdOffset : Nat) : List Nat :=
  let b1 := writeBytes buf 0 (le16 0x4949)
  if fmt.magic = 42 then
    let b2 := writeBytes b1 2 (le16 42)
    writeBytes b2 4 (le32 firstIfdOffset)
  else
    let b2 := writeBytes b1 2 (le16 43)
    let b3 := writeBytes b2 4 (le16 8)
    let b4 := writeBytes b3 6 (le16 0)
    writeBytes b4 8 (le64 firstIfdOffset)

/-- Absolute tile offsets for one IFD (the tileOffsets loop in
tiff-writer.ts writeIfd). -/
def tileOffsetsFrom : Nat → List (List Nat) → List Nat
  | _, [] => []
  | cur, t :: ts => cur :: tileOffsetsFrom (cur + t.length) ts

/-- Encode an offset array at the format's offset width. -/
def encodeOffsets (fmt : TiffFormat) (xs : List Nat) : List Nat :=
  xs.flatMap (fun v => if fmt.offsetSize = 8 then le64 v else le32 v)

/-- Write one tag entry (the tag loop body of tiff-writer.ts writeIfd),
threading the buffer, the entry position, and the overflow cursor.
Offset, byte-count, and SubIFDs tags have their placeholder value bytes
patched from the placed layout before writing. -/
def writeTagEntry (fmt : TiffFormat) (tileOffsets : List Nat)
    (tiles : List (List Nat)) (subIfdOffsets : List Nat)
    (acc : List Nat × Nat × Nat) (tag : ResolvedTag) :
    List Nat × Nat × Nat :=
  let buf := acc.1
  let pos := acc.2.1
  let overflowCursor := acc.2.2
  let head :=
    if fmt.magic = 43 then le16 tag.tag ++ le16 tag.type ++ le64 tag.count
    else le16 tag.tag ++ le16 tag.type ++ le32 tag.count
  let buf1 := writeBytes buf pos head
  let valueFieldOffset := if fmt.magic = 43 then pos + 12 else pos + 8
  let valueBytes :=
    if tag.tag = TAG_TILE_OFFSETS ∨ tag.tag = TAG_STRIP_OFFSETS then
      encodeOffsets fmt tileOffsets
    else if tag.tag = TAG_TILE_BYTE_COUNTS ∨
        tag.tag = TAG_STRIP_BYTE_COUNTS then
      encodeOffsets fmt (tiles.map List.length)
    else if tag.tag = TAG_SUB_IFDS ∧ 0 < subIfdOffsets.length then
      encodeOffsets fmt subIfdOffsets
    else tag.valueBytes
  if valueBytes.length ≤ fmt.inlineThreshold then
    let buf2 := writeBytes buf1 valueFieldOffset
      (valueBytes ++ List.replicate (fmt.inlineThreshold - valueBytes.length) 0)
    (buf2, pos + fmt.ifdEntrySize, overflowCursor)
  else
    let buf2 := writeBytes buf1 valueFieldOffset
      (if fmt.offsetSize = 8 then le64 overflowCursor
       else le32 overflowCursor)
    let buf3 := writeBytes buf2 overflowCursor valueBytes
    let pad := if valueBytes.length % 2 ≠ 0 then 1 else 0
    (buf3, pos + fmt.ifdEntrySize, overflowCursor + valueBytes.length + pad)

/-- Write one placed IFD: entry count, tag entries, next-IFD pointer, and
tile data (tiff-writer.ts writeIfd). -/
def writeIfd (buf : List Nat) (placed : PlacedIfd) (fmt : TiffFormat) :
    List Nat :=
  match placed with
  | .mk ifdOffset tags overflowOffset _ tileDataOffset tiles subIfds
      nextIfdOffset =>
    let start :=
      if fmt.magic = 43 then
        (writeBytes buf ifdOffset (le64 tags.length), ifdOffset + 8)
      else
        (writeBytes buf ifdOffset (le16 tags.length), ifdOffset + 2)
    let tileOffsets := tileOffsetsFrom tileDataOffset tiles
    let subIfdOffsets := subIfds.map PlacedIfd.ifdOffset
    let afterTags := tags.foldl
      (writeTagEntry fmt tileOffsets tiles subIfdOffsets)
      (start.1, start.2, overflowOffset)
    let buf3 := writeBytes afterTags.1 afterTags.2.1
      (if fmt.magic = 43 then le64 nextIfdOffset else le32 nextIfdOffset)
    (tiles.foldl
      (fun (acc : List Nat × Nat) t =>
        (writeBytes acc.1 acc.2 t, acc.2 + t.length))
      (buf3, tileDataOffset)).1

/-- The failure modes of buildTiff: the FileTooLarge guard for classic
format, or an exception from tag resolution. -/
inductive BuildErr where
  | fileTooLarge
  | tagError (msg : String)
deriving DecidableEq, Repr

/-- Phases 3 to 5 of tiff-writer.ts buildTiff once the format is fixed:
place all IFDs, compute the total size, allocate the zero buffer, write
the header and every placed IFD. -/
def buildPhases (ifds : List WritableIfd) (fmt : TiffFormat) :
    Except BuildErr (List Nat) :=
  match placeIfds ifds fmt with
  | .error e => .error (.tagError e)
  | .ok placed =>
    let totalSize := computeTotalSize placed fmt
    let buffer := List.replicate totalSize 0
    let buf1 := writeHeader buffer fmt
      (match placed with
       | [] => 0
       | p :: _ => p.ifdOffset)
    .ok (placed.foldl (fun b p => writeIfd b p fmt) buf1)

/-- Build a complete TIFF file (tiff-writer.ts buildTiff): compress,
pick the format (with the classic-format FileTooLarge guard and the
BigTIFF auto-detection, both on estimateRawSize), place, size, and
write.  The deflate codec is an external collaborator. -/
def buildTiff (deflate : List Nat → List Nat) (ifds : List WritableIfd)
    (compression : CompressionOpt) (formatOpt : FormatOpt) :
    Except BuildErr (List Nat) :=
  let processedIfds := processIfdList deflate compression ifds
  let rawSize := estimateRawSize processedIfds
  match formatOpt with
  | .bigtiff => buildPhases processedIfds BIGTIFF_FORMAT
  | .classic =>
    if 0xfffffffe < rawSize then .error .fileTooLarge
    else buildPhases processedIfds CLASSIC_FORMAT
  | .auto =>
    buildPhases processedIfds
      (if 3900000000 < rawSize then BIGTIFF_FORMAT else CLASSIC_FORMAT)

/-- The C3 counterexample input: a single strip-less IFD whose only tag
is an ImageDescription of five billion characters. -/
def c3CexIfd : WritableIfd :=
  .mk [{ tag := TAG_IMAGE_DESCRIPTION, type := TIFF_TYPE_ASCII,
         values := .ascii (String.mk (List.replicate 5000000000 'a')) }]
    [] none

/-! ## ome-xml-writer (in dtypes.ts): the OME-XML generator -/

/-- Modelled from the spec: zarrToOmePixelType is imported by buildOmeXml
from dtypes.js but its definition is not among the provided sources.  Per
spec section 4.A (arrayDtypeToOmeType), the OME type string is the dtype
name itself except that float32 maps to "float" and float64 to
"double". -/
def zarrToOmePixelType : ZarrDataType → String
  | .int8 => "int8"
  | .int16 => "int16"
  | .int32 => "int32"
  | .uint8 => "uint8"
  | .uint16 => "uint16"
  | .uint32 => "uint32"
  | .float32 => "float"
  | .float64 => "double"

/-- One axis of the ngff-zarr metadata, as the writer reads it. -/
structure NgffAxis where
  name : String
  unit : Option String
deriving DecidableEq, Repr

/-- One omero display channel, as the writer reads it. -/
structure NgffOmeroChannel where
  color : String
  label : Option String
deriving DecidableEq, Repr

structure NgffOmero where
  channels : List NgffOmeroChannel
deriving DecidableEq, Repr

structure NgffMetadata where
  axes : List NgffAxis
  name : Option String
  omero : Option NgffOmero
deriving DecidableEq, Repr

/-- The fields of an ngff-zarr image the writer reads: the array shape,
the dimension names, and the per-axis scale map.  Scale factors are JS
numbers; the non-negative integer paths are modelled, per the conventions
of this file, as Nat. -/
structure NgffImage where
  shape : List Nat
  dims : List String
  scale : List (String × Nat)
deriving DecidableEq, Repr

/-- The ngff-zarr Multiscales object as used by buildOmeXml. -/
structure Multiscales where
  images : List NgffImage
  metadata : NgffMetadata
deriving DecidableEq, Repr

structure OmeXmlWriterOptions where
  dimensionOrder : Option String := none
  creator : Option String := none
  imageName : Option String := none
deriving DecidableEq, Repr

/-- Writer-side dimension info (the DimensionInfo interface of the
ome-xml-writer part of dtypes.ts; renamed since write.ts has its own
DimensionInfo). -/
structure DimensionInfoW where
  sizeX : Nat := 1
  sizeY : Nat := 1
  sizeZ : Nat := 1
  sizeC : Nat := 1
  sizeT : Nat := 1
  physicalSizeX : Option Nat := none
  physicalSizeXUnit : Option String := none
  physicalSizeY : Option Nat := none
  physicalSizeYUnit : Option String := none
  physicalSizeZ : Option Nat := none
  physicalSizeZUnit : Option String := none
deriving DecidableEq, Repr

/-- NGFF unit names to OME unit symbols, default passthrough
(ngffUnitToOmeUnit). -/
def ngffUnitToOmeUnit (unit : String) : String :=
  match unit with
  | "angstrom" => "Å"
  | "attometer" => "am"
  | "centimeter" => "cm"
  | "decimeter" => "dm"
  | "exameter" => "Em"
  | "femtometer" => "fm"
  | "foot" => "ft"
  | "gigameter" => "Gm"
  | "hectometer" => "hm"
  | "inch" => "in"
  | "kilometer" => "km"
  | "megameter" => "Mm"
  | "meter" => "m"
  | "micrometer" => "µm"
  | "mile" => "mi"
  | "millimeter" => "mm"
  | "nanometer" => "nm"
  | "parsec" => "pc"
  | "petameter" => "Pm"
  | "picometer" => "pm"
  | "terameter" => "Tm"
  | "yard" => "yd"
  | "yoctometer" => "ym"
  | "yottameter" => "Ym"
  | "zeptometer" => "zm"
  | "zettameter" => "Zm"
  | u => u

def lookupScale (scale : List (String × Nat)) (k : String) : Option Nat :=
  match scale.find? (fun kv => kv.1 = k) with
  | some kv => some kv.2
  | none => none

/-- Extract dimension and physical sizes from images[0] (extractDimensions).
The source dereferences images[0] unconditionally; an empty image list is
a TypeError in JS and outside the modelled domain, stood in for by a
dummy image. -/
def extractDimensions (m : Multiscales) : DimensionInfoW :=
  let image := m.images.headD { shape := [], dims := [], scale := [] }
  let base := (List.range image.dims.length).foldl
    (fun info i =>
      match image.dims.getD i "" with
      | "x" => { info with sizeX := image.shape.getD i 0 }
      | "y" => { info with sizeY := image.shape.getD i 0 }
      | "z" => { info with sizeZ := image.shape.getD i 0 }
      | "c" => { info with sizeC := image.shape.getD i 0 }
      | "t" => { info with sizeT := image.shape.getD i 0 }
      | _ => info)
    {}
  m.metadata.axes.foldl
    (fun info axis =>
      match lookupScale image.scale axis.name with
      | none => info
      | some s =>
        if s = 0 then info
        else
          let unit := match axis.unit with
            | some u => if u = "" then none else some (ngffUnitToOmeUnit u)
            | none => none
          match axis.name with
          | "x" =>
            { info with physicalSizeX := some s, physicalSizeXUnit := unit }
          | "y" =>
            { info with physicalSizeY := some s, physicalSizeYUnit := unit }
          | "z" =>
            { info with physicalSizeZ := some s, physicalSizeZUnit := unit }
          | _ => info)
    base

/-- escapeXml's five global replaces: none of the later passes can see
characters introduced by an earlier one, so the composition is the
per-character map.  Character codes: 38 &, 60 <, 62 >, 34 double quote,
39 apostrophe. -/
def escapeXmlChar (c : Char) : List Char :=
  if c.toNat = 38 then "&amp;".toList
  else if c.toNat = 60 then "&lt;".toList
  else if c.toNat = 62 then "&gt;".toList
  else if c.toNat = 34 then "&quot;".toList
  else if c.toNat = 39 then "&apos;".toList
  else [c]

def escapeXml (s : String) : String :=
  String.mk (s.toList.flatMap escapeXmlChar)

def hexDigitVal (c : Char) : Option Nat :=
  if c.isDigit then some (c.toNat - 48)
  else if 97 ≤ c.toNat ∧ c.toNat ≤ 102 then some (c.toNat - 87)
  else if 65 ≤ c.toNat ∧ c.toNat ≤ 70 then some (c.toNat - 55)
  else none

/-- JS parseInt(s, 16): whitespace, optional sign, optional 0x prefix,
maximal hex-digit run; NaN as none. -/
def parseHexJs (s : String) : Option Int :=
  let cs := s.toList.dropWhile jsWhitespace
  let signed : Bool × List Char :=
    match cs with
    | '-' :: rest => (true, rest)
    | '+' :: rest => (false, rest)
    | _ => (false, cs)
  let body := match signed.2 with
    | '0' :: 'x' :: rest => rest
    | '0' :: 'X' :: rest => rest
    | rest => rest
  let digits := body.takeWhile (fun c => (hexDigitVal c).isSome)
  if digits.isEmpty then none
  else
    let n : Int :=
      (digits.foldl (fun acc c => acc * 16 + (hexDigitVal c).getD 0) 0 : Nat)
    some (if signed.1 then -n else n)

/-- JS String.prototype.substring with in-range arguments. -/
def jsSubstring (s : List Char) (a b : Nat) : List Char := (s.take b).drop a

/-- JS integer-to-string rendering for the template literal. -/
def jsIntToString (i : Int) : String :=
  if i < 0 then "-" ++ Nat.repr (-i).toNat else Nat.repr i.toNat

/-- Hex color to signed 32-bit RGBA int (hexColorToOmeInt).  The bitwise
ops coerce a NaN component to 0; the shifted sum is taken unsigned via
the final zero-fill shift, then mapped into the signed range. -/
def hexColorToOmeInt (hex : String) : Int :=
  let h := match hex.toList with
    | '#' :: rest => rest
    | l => l
  let r := (parseHexJs (String.mk (jsSubstring h 0 2))).getD 0
  let g := (parseHexJs (String.mk (jsSubstring h 2 4))).getD 0
  let b := (parseHexJs (String.mk (jsSubstring h 4 6))).getD 0
  let a := if 8 ≤ h.length then (parseHexJs (String.mk (jsSubstring h 6 8))).getD 0
    else 255
  let unsigned := (r * 16777216 + g * 65536 + b * 256 + a).emod 4294967296
  if 2147483647 < unsigned then unsigned - 4294967296 else unsigned

/-- Channel XML lines (buildChannelElements). -/
def buildChannelElements (m : Multiscales) (sizeC : Nat) : String :=
  let lines := (List.range sizeC).map (fun c =>
    let omeroChannel := match m.metadata.omero with
      | some o => o.channels.get? c
      | none => none
    let name := (omeroChannel.bind (fun ch => ch.label)).getD
      ("Ch" ++ Nat.repr c)
    let colorAttr := match omeroChannel with
      | some ch =>
        " Color=\"" ++ jsIntToString (hexColorToOmeInt ch.color) ++ "\""
      | none => ""
    "      <Channel ID=\"Channel:0:" ++ Nat.repr c ++ "\" Name=\"" ++
      escapeXml name ++ "\" SamplesPerPixel=\"1\"" ++ colorAttr ++ "/>")
  if 0 < lines.length then String.intercalate "\n" lines ++ "\n" else ""

/-- Physical size attributes (buildPhysicalSizeAttrs); a unit attribute
is emitted only for a truthy (present and non-empty) unit. -/
def buildPhysicalSizeAttrs (dims : DimensionInfoW) : String :=
  (match dims.physicalSizeX with
   | some v =>
     " PhysicalSizeX=\"" ++ Nat.repr v ++ "\"" ++
       (match dims.physicalSizeXUnit with
        | some u =>
          if u = "" then "" else " PhysicalSizeXUnit=\"" ++ escapeXml u ++ "\""
        | none => "")
   | none => "") ++
  (match dims.physicalSizeY with
   | some v =>
     " PhysicalSizeY=\"" ++ Nat.repr v ++ "\"" ++
       (match dims.physicalSizeYUnit with
        | some u =>
          if u = "" then "" else " PhysicalSizeYUnit=\"" ++ escapeXml u ++ "\""
        | none => "")
   | none => "") ++
  (match dims.physicalSizeZ with
   | some v =>
     " PhysicalSizeZ=\"" ++ Nat.repr v ++ "\"" ++
       (match dims.physicalSizeZUnit with
        | some u =>
          if u = "" then "" else " PhysicalSizeZUnit=\"" ++ escapeXml u ++ "\""
        | none => "")
   | none => "")

/-- The OME-XML template of buildOmeXml, transcribed line for line. -/
def buildOmeXml (m : Multiscales) (dtype : ZarrDataType)
    (options : OmeXmlWriterOptions) : String :=
  let dimensionOrder := options.dimensionOrder.getD "XYZCT"
  let creator := options.creator.getD "fiff"
  let dims := extractDimensions m
  let omeType := zarrToOmePixelType dtype
  let imageName :=
    (options.imageName.orElse (fun _ => m.metadata.name)).getD "image"
  let channels := buildChannelElements m dims.sizeC
  let physAttrs := buildPhysicalSizeAttrs dims
  "<?xml version=\"1.0\" encoding=\"UTF-8\"?>\n" ++
  "<OME xmlns=\"http://www.openmicroscopy.org/Schemas/OME/2016-06\"\n" ++
  "     xmlns:xsi=\"http://www.w3.org/2001/XMLSchema-instance\"\n" ++
  "     xsi:schemaLocation=\"http://www.openmicroscopy.org/Schemas/OME/2016-06\n" ++
  "       http://www.openmicroscopy.org/Schemas/OME/2016-06/ome.xsd\"\n" ++
  "     Creator=\"" ++ escapeXml creator ++ "\">\n" ++
  "  <Image ID=\"Image:0\" Name=\"" ++ escapeXml imageName ++ "\">\n" ++
  "    <Pixels ID=\"Pixels:0\" DimensionOrder=\"" ++ dimensionOrder ++
    "\" Type=\"" ++ omeType ++ "\"\n" ++
  "            SizeX=\"" ++ Nat.repr dims.sizeX ++ "\" SizeY=\"" ++
    Nat.repr dims.sizeY ++ "\" SizeZ=\"" ++ Nat.repr dims.sizeZ ++
    "\" SizeC=\"" ++ Nat.repr dims.sizeC ++ "\" SizeT=\"" ++
    Nat.repr dims.sizeT ++ "\"\n" ++
  "            BigEndian=\"false\"" ++ physAttrs ++ ">\n" ++
  channels ++ "      <TiffData/>\n" ++
  "    </Pixels>\n" ++
  "  </Image>\n" ++
  "</OME>"

/-! ## ome-xml.ts: the regex-based parser, as character scanners -/

/-- JS regex word character \w. -/
def wordChar (c : Char) : Bool := c.isAlphanum || c = '_'

/-- Split at the first character satisfying p: the part before, the
matched character, the part after. -/
def splitAtFirstBy (p : Char → Bool) : List Char → Option (List Char × Char × List Char)
  | [] => none
  | c :: rest =>
    if p c then some ([], c, rest)
    else
      match splitAtFirstBy p rest with
      | some (b, ch, a) => some (c :: b, ch, a)
      | none => none

/-- Split at the first occurrence of a substring: the part before and the
part after the substring. -/
def splitAtSub (pat : List Char) : List Char → Option (List Char × List Char)
  | [] => if pat.isEmpty then some ([], []) else none
  | c :: rest =>
    if pat.isPrefixOf (c :: rest) then some ([], (c :: rest).drop pat.length)
    else
      match splitAtSub pat rest with
      | some (b, a) => some (c :: b, a)
      | none => none

/-- The attribute regex loop of parseAttributes: at a word character,
the maximal word run must be followed by an equals sign and a quote,
the value runs to the next quote; otherwise scanning advances one
character, exactly as the regex engine retries at the next position.
A missing closing quote ends all matching. -/
def scanAttrPairs : Nat → List Char → List (String × String)
  | 0, _ => []
  | _, [] => []
  | fuel + 1, c :: rest =>
    if wordChar c then
      let name := c :: rest.takeWhile wordChar
      match rest.dropWhile wordChar with
      | e :: q :: rest3 =>
        if e = '=' ∧ q.toNat = 34 then
          match splitAtFirstBy (fun ch => ch.toNat = 34) rest3 with
          | some (value, _, rest4) =>
            (String.mk name, String.mk value) :: scanAttrPairs fuel rest4
          | none => []
        else scanAttrPairs fuel rest
      | _ => scanAttrPairs fuel rest
    else scanAttrPairs fuel rest

def parseAttributes (s : List Char) : List (String × String) :=
  scanAttrPairs s.length s

/-- JS object indexing on the collected attribute pairs: a later match
for the same name overwrites an earlier one. -/
def getAttr (attrs : List (String × String)) (k : String) : Option String :=
  match attrs.reverse.find? (fun kv => kv.1 = k) with
  | some kv => some kv.2
  | none => none

/-- One attempt of the Image regex at the head of the input: the literal
tag opener, one whitespace, attributes up to the closing angle bracket,
then the lazily shortest body ending at the closing tag. -/
def tryImageAt (s : List Char) : Option (List Char × List Char × List Char) :=
  if ("<Image".toList).isPrefixOf s then
    match s.drop 6 with
    | c :: rest =>
      if jsWhitespace c then
        match splitAtFirstBy (fun ch => ch = '>') rest with
        | some (attrs, _, rest2) =>
          match splitAtSub ("</Image>".toList) rest2 with
          | some (body, after) => some (attrs, body, after)
          | none => none
        | none => none
      else none
    | [] => none
  else none

/-- The global Image regex loop: on a match continue after it, otherwise
advance one character. -/
def scanImagesAux : Nat → List Char → List (List Char × List Char)
  | 0, _ => []
  | _, [] => []
  | fuel + 1, c :: rest =>
    match tryImageAt (c :: rest) with
    | some (attrs, body, after) => (attrs, body) :: scanImagesAux fuel after
    | none => scanImagesAux fuel rest

def tryPixelsAt (s : List Char) : Option (List Char × List Char) :=
  if ("<Pixels".toList).isPrefixOf s then
    match s.drop 7 with
    | c :: rest =>
      if jsWhitespace c then
        match splitAtFirstBy (fun ch => ch = '>') rest with
        | some (attrs, _, rest2) =>
          match splitAtSub ("</Pixels>".toList) rest2 with
          | some (body, _) => some (attrs, body)
          | none => none
        | none => none
      else none
    | [] => none
  else none

/-- First match of the non-global Pixels regex. -/
def firstPixels : List Char → Option (List Char × List Char)
  | [] => none
  | c :: rest =>
    match tryPixelsAt (c :: rest) with
    | some r => some r
    | none => firstPixels rest

/-- One attempt of the Channel regex: the attribute class excludes both
the slash and the closing angle bracket, then an optional slash and the
closing angle bracket must follow immediately — an attribute value
containing a slash therefore makes the whole attempt fail. -/
def tryChannelAt (s : List Char) : Option (List Char × List Char) :=
  if ("<Channel".toList).isPrefixOf s then
    match s.drop 8 with
    | c :: rest =>
      if jsWhitespace c then
        match splitAtFirstBy (fun ch => ch = '/' || ch = '>') rest with
        | some (attrs, stop, rest2) =>
          if stop = '>' then some (attrs, rest2)
          else
            match rest2 with
            | g :: rest3 => if g = '>' then some (attrs, rest3) else none
            | [] => none
        | none => none
      else none
    | [] => none
  else none

def scanChannelsAux : Nat → List Char → List (List Char)
  | 0, _ => []
  | _, [] => []
  | fuel + 1, c :: rest =>
    match tryChannelAt (c :: rest) with
    | some (attrs, after) => attrs :: scanChannelsAux fuel after
    | none => scanChannelsAux fuel rest

/-- One attempt of the TiffData regex.  The lazy attribute class tries
the self-closing alternative first, so a slash directly before the first
closing angle bracket closes the element; otherwise the body runs to the
closing tag, and a missing closing tag fails the attempt. -/
def tryTiffDataAt (s : List Char) :
    Option (List Char × Option (List Char) × List Char) :=
  if ("<TiffData".toList).isPrefixOf s then
    match s.drop 9 with
    | c :: rest =>
      if jsWhitespace c then
        match splitAtFirstBy (fun ch => ch = '>') rest with
        | some (pre, _, rest2) =>
          if pre.getLast? = some '/' then
            some (pre.dropLast, none, rest2)
          else
            match splitAtSub ("</TiffData>".toList) rest2 with
            | some (body, after) => some (pre, some body, after)
            | none => none
        | none => none
      else none
    | [] => none
  else none

def scanTiffDataAux : Nat → List Char → List (List Char × Option (List Char))
  | 0, _ => []
  | _, [] => []
  | fuel + 1, c :: rest =>
    match tryTiffDataAt (c :: rest) with
    | some (attrs, body, after) =>
      (attrs, body) :: scanTiffDataAux fuel after
    | none => scanTiffDataAux fuel rest

/-- One attempt of the UUID regex: optional whitespace, attributes to the
closing angle bracket, inner text free of angle brackets, then the
closing tag immediately. -/
def tryUuidAt (s : List Char) : Option (List Char × List Char) :=
  if ("<UUID".toList).isPrefixOf s then
    let rest := (s.drop 5).dropWhile jsWhitespace
    match splitAtFirstBy (fun ch => ch = '>') rest with
    | some (attrs, _, rest2) =>
      let body := rest2.takeWhile (fun ch => ¬ (ch = '<'))
      let rest3 := rest2.dropWhile (fun ch => ¬ (ch = '<'))
      if ("</UUID>".toList).isPrefixOf rest3 then some (attrs, body)
      else none
    | none => none
  else none

def firstUuid : List Char → Option (List Char × List Char)
  | [] => none
  | c :: rest =>
    match tryUuidAt (c :: rest) with
    | some r => some r
    | none => firstUuid rest

/-- JS String.prototype.trim on a character list. -/
def jsTrim (l : List Char) : List Char :=
  ((l.dropWhile jsWhitespace).reverse.dropWhile jsWhitespace).reverse

/-- A parsed Channel element, as the parser object stores it: parseInt
results that can be NaN are Options. -/
structure ParsedChannel where
  id : String
  name : Option String
  samplesPerPixel : Option Int
  color : Option Int
deriving DecidableEq, Repr

/-- A parsed TiffData element (the parser's TiffDataEntry object). -/
structure ParsedTiffData where
  firstC : Option Int
  firstZ : Option Int
  firstT : Option Int
  ifd : Option Int
  planeCount : Option Int
  uuid : Option String
  fileName : Option String
deriving DecidableEq, Repr

/-- The parser's raw OmePixels object (distinct from the validated
OmePixels consumed by the indexer): sizes may be NaN, physical sizes are
kept as their source attribute strings. -/
structure ParsedPixels where
  sizeX : Option Int
  sizeY : Option Int
  sizeZ : Option Int
  sizeC : Option Int
  sizeT : Option Int
  dimensionOrder : DimensionOrder
  type : String
  physicalSizeX : Option String
  physicalSizeXUnit : String
  physicalSizeY : Option String
  physicalSizeYUnit : String
  physicalSizeZ : Option String
  physicalSizeZUnit : String
  bigEndian : Bool
  interleaved : Bool
  channels : List ParsedChannel
  tiffData : List ParsedTiffData
deriving DecidableEq, Repr

structure ParsedImage where
  id : String
  name : Option String
  pixels : ParsedPixels
deriving DecidableEq, Repr

def dimensionOrderOfString : String → Option DimensionOrder
  | "XYZCT" => some .XYZCT
  | "XYZTC" => some .XYZTC
  | "XYCTZ" => some .XYCTZ
  | "XYCZT" => some .XYCZT
  | "XYTCZ" => some .XYTCZ
  | "XYTZC" => some .XYTZC
  | _ => none

def parseChannelAt (idx : Nat) (attrsChars : List Char) : ParsedChannel :=
  let attrs := parseAttributes attrsChars
  { id := (getAttr attrs "ID").getD ("Channel:0:" ++ Nat.repr idx)
    name := getAttr attrs "Name"
    samplesPerPixel := parseIntJs ((getAttr attrs "SamplesPerPixel").getD "1")
    color :=
      match getAttr attrs "Color" with
      | some s => if s = "" then none else parseIntJs s
      | none => none }

def parseTiffDataEntry (e : List Char × Option (List Char)) :
    ParsedTiffData :=
  let attrs := parseAttributes e.1
  let tdBody := e.2.getD []
  let uuidPair := firstUuid tdBody
  { firstC := parseIntJs ((getAttr attrs "FirstC").getD "0")
    firstZ := parseIntJs ((getAttr attrs "FirstZ").getD "0")
    firstT := parseIntJs ((getAttr attrs "FirstT").getD "0")
    ifd := parseIntJs ((getAttr attrs "IFD").getD "0")
    planeCount := parseIntJs ((getAttr attrs "PlaneCount").getD "1")
    uuid := uuidPair.map (fun up => String.mk (jsTrim up.2))
    fileName := uuidPair.bind (fun up => getAttr (parseAttributes up.1) "FileName") }

/-- Assemble the pixels object from the Pixels attributes and body;
throws (as an error value) on a missing or invalid DimensionOrder. -/
def parsePixelsBlock (pattrsChars : List Char) (pbody : List Char) :
    Except String ParsedPixels :=
  let attrs := parseAttributes pattrsChars
  let channels := ((scanChannelsAux pbody.length pbody).enum).map
    (fun p => parseChannelAt p.1 p.2)
  let tiffData := (scanTiffDataAux pbody.length pbody).map parseTiffDataEntry
  match (getAttr attrs "DimensionOrder").bind dimensionOrderOfString with
  | none => .error "Invalid DimensionOrder"
  | some ord =>
    let sizeC := match getAttr attrs "SizeC" with
      | some s => parseIntJs s
      | none => parseIntJs "1"
    let channels2 :=
      if channels.isEmpty then
        match sizeC with
        | some n =>
          (List.range n.toNat).map (fun c =>
            { id := "Channel:0:" ++ Nat.repr c, name := none,
              samplesPerPixel := some 1, color := none })
        | none => []
      else channels
    .ok
      { sizeX := (getAttr attrs "SizeX").bind parseIntJs
        sizeY := (getAttr attrs "SizeY").bind parseIntJs
        sizeZ := parseIntJs ((getAttr attrs "SizeZ").getD "1")
        sizeC := sizeC
        sizeT := parseIntJs ((getAttr attrs "SizeT").getD "1")
        dimensionOrder := ord
        type := (getAttr attrs "Type").getD "uint16"
        physicalSizeX :=
          match getAttr attrs "PhysicalSizeX" with
          | some s => if s = "" then none else some s
          | none => none
        physicalSizeXUnit := (getAttr attrs "PhysicalSizeXUnit").getD "µm"
        physicalSizeY :=
          match getAttr attrs "PhysicalSizeY" with
          | some s => if s = "" then none else some s
          | none => none
        physicalSizeYUnit := (getAttr attrs "PhysicalSizeYUnit").getD "µm"
        physicalSizeZ :=
          match getAttr attrs "PhysicalSizeZ" with
          | some s => if s = "" then none else some s
          | none => none
        physicalSizeZUnit := (getAttr attrs "PhysicalSizeZUnit").getD "µm"
        bigEndian := getAttr attrs "BigEndian" == some "true"
        interleaved := getAttr attrs "Interleaved" == some "true"
        channels := channels2
        tiffData := tiffData }

/-- The Image loop of parseOmeXml: an Image block without a Pixels block
is skipped without advancing the pushed-image count. -/
def parseImagesLoop : List (List Char × List Char) → Nat →
    Except String (List ParsedImage)
  | [], _ => .ok []
  | (attrsChars, body) :: rest, count =>
    match firstPixels body with
    | none => parseImagesLoop rest count
    | some (pattrsChars, pbody) =>
      match parsePixelsBlock pattrsChars pbody with
      | .error e => .error e
      | .ok pixels =>
        let attrs := parseAttributes attrsChars
        match parseImagesLoop rest (count + 1) with
        | .error e => .error e
        | .ok imgs =>
          .ok ({ id := (getAttr attrs "ID").getD ("Image:" ++ Nat.repr count)
                 name := getAttr attrs "Name"
                 pixels := pixels } :: imgs)

/-- parseOmeXml (ome-xml.ts): regex scanning over the document.  The
DimensionOrder validation throw is the error value. -/
def parseOmeXml (xml : String) : Except String (List ParsedImage) :=
  parseImagesLoop (scanImagesAux xml.toList.length xml.toList) 0

/-- The C4 input: two channels whose first label contains a slash. -/
def c4Multi : Multiscales :=
  { images := [{ shape := [2, 4, 5], dims := ["c", "y", "x"], scale := [] }],
    metadata :=
      { axes := [], name := none,
        omero := some { channels :=
          [{ color := "FF0000", label := some "a/b" },
           { color := "00FF00", label := some "B" }] } } }
end Fiff

namespace Fiff

/-! ## Theorems: C1 (round trip) and C5 (index formula) -/

/-- Mixed-radix facts used by the round-trip proof. -/
theorem mixedRadix_mod (s0 s1 i0 i1 i2 : Nat) (h0 : i0 < s0) :
    (i0 + s0 * i1 + s0 * s1 * i2) % s0 = i0 := by
  have h : i0 + s0 * i1 + s0 * s1 * i2 = i0 + s0 * (i1 + s1 * i2) := by ring
  rw [h, Nat.add_mul_mod_self_left, Nat.mod_eq_of_lt h0]

theorem mixedRadix_div_mod (s0 s1 i0 i1 i2 : Nat) (h0 : i0 < s0) (h1 : i1 < s1) :
    (i0 + s0 * i1 + s0 * s1 * i2) / s0 % s1 = i1 := by
  have hpos : 0 < s0 := Nat.pos_of_ne_zero (by omega)
  have h : i0 + s0 * i1 + s0 * s1 * i2 = i0 + s0 * (i1 + s1 * i2) := by ring
  rw [h, Nat.add_mul_div_left _ _ hpos, Nat.div_eq_of_lt h0]
  rw [Nat.zero_add, Nat.add_mul_mod_self_left, Nat.mod_eq_of_lt h1]

theorem mixedRadix_div2 (s0 s1 i0 i1 i2 : Nat) (h0 : i0 < s0) (h1 : i1 < s1) :
    (i0 + s0 * i1 + s0 * s1 * i2) / (s0 * s1) = i2 := by
  have hsmall : i0 + s0 * i1 < s0 * s1 := by
    calc i0 + s0 * i1 < s0 + s0 * i1 := by omega
    _ = s0 * (i1 + 1) := by ring
    _ ≤ s0 * s1 := Nat.mul_le_mul_left s0 (by omega)
  have hpos : 0 < s0 * s1 := by
    have : 0 < s0 := by omega
    have : 0 < s1 := by omega
    exact Nat.mul_pos (by omega) (by omega)
  have h : i0 + s0 * i1 + s0 * s1 * i2 = (i0 + s0 * i1) + (s0 * s1) * i2 := by ring
  rw [h, Nat.add_mul_div_left _ _ hpos, Nat.div_eq_of_lt hsmall, Nat.zero_add]

/-- C1: for every DimensionOrder and every valid plane selection (c, z, t),
the writer's inverse decomposition ifdIndexToPlane applied, with the same
sizes and order, to the linear index returned by getIfdIndex yields exactly
(c, z, t). -/
theorem c1_ifdIndex_roundTrip (p : OmePixels) (dims : DimensionInfo)
    (c z t : Nat)
    (hz : dims.sizeZ = p.sizeZ) (hc : dims.sizeC = p.sizeC)
    (ht : dims.sizeT = p.sizeT)
    (hcv : c < p.sizeC) (hzv : z < p.sizeZ) (htv : t < p.sizeT) :
    ifdIndexToPlane (getIfdIndex c z t p) dims p.dimensionOrder =
      ⟨c, z, t⟩ := by
  cases hord : p.dimensionOrder <;>
    simp only [ifdIndexToPlane, getIfdIndex, hord, DimensionOrder.tail,
      DimensionInfo.sizeMap, cztIndex, hz, hc, ht] <;>
    refine PlaneSelection.mk.injEq _ _ _ _ _ _ ▸ ?_ <;>
    simp only [reduceIte, reduceCtorEq, PlaneSelection.mk.injEq]
  case XYZCT =>
    exact ⟨mixedRadix_div_mod _ _ _ _ _ hzv hcv, mixedRadix_mod _ _ _ _ _ hzv,
      mixedRadix_div2 _ _ _ _ _ hzv hcv⟩
  case XYZTC =>
    exact ⟨mixedRadix_div2 _ _ _ _ _ hzv htv, mixedRadix_mod _ _ _ _ _ hzv,
      mixedRadix_div_mod _ _ _ _ _ hzv htv⟩
  case XYCTZ =>
    exact ⟨mixedRadix_mod _ _ _ _ _ hcv, mixedRadix_div2 _ _ _ _ _ hcv htv,
      mixedRadix_div_mod _ _ _ _ _ hcv htv⟩
  case XYCZT =>
    exact ⟨mixedRadix_mod _ _ _ _ _ hcv, mixedRadix_div_mod _ _ _ _ _ hcv hzv,
      mixedRadix_div2 _ _ _ _ _ hcv hzv⟩
  case XYTCZ =>
    exact ⟨mixedRadix_div_mod _ _ _ _ _ htv hcv, mixedRadix_div2 _ _ _ _ _ htv hcv,
      mixedRadix_mod _ _ _ _ _ htv⟩
  case XYTZC =>
    exact ⟨mixedRadix_div2 _ _ _ _ _ htv hzv, mixedRadix_div_mod _ _ _ _ _ htv hzv,
      mixedRadix_mod _ _ _ _ _ htv⟩

/-- Witness for C1 at a concrete input. -/
theorem c1_ifdIndex_roundTrip_witness :
    ifdIndexToPlane
      (getIfdIndex 1 0 1
        { sizeX := 4, sizeY := 4, sizeZ := 2, sizeC := 3, sizeT := 2,
          dimensionOrder := .XYTZC, type := "uint16",
          physicalSizeX := none, physicalSizeY := none, physicalSizeZ := none,
          bigEndian := false, interleaved := false,
          channels := [], tiffData := [] })
      { sizeX := 4, sizeY := 4, sizeZ := 2, sizeC := 3, sizeT := 2 }
      DimensionOrder.XYTZC = ⟨1, 0, 1⟩ :=
  c1_ifdIndex_roundTrip _ _ 1 0 1 rfl rfl rfl (by decide) (by decide) (by decide)

/-- C5: getIfdIndex computes the mixed-radix linear index of the spec
formula, and takes the S4 concrete values for DimensionOrder XYTZC with
sizeZ = 2, sizeC = 3, sizeT = 2. -/
theorem c5_getIfdIndex_formula_and_s4 :
    (∀ (p : OmePixels) (c z t : Nat),
      getIfdIndex c z t p = specLinearIndex c z t p) ∧
    getIfdIndex 1 0 0 s4Pixels = 4 ∧ getIfdIndex 0 1 0 s4Pixels = 2 ∧
    getIfdIndex 0 0 1 s4Pixels = 1 ∧ getIfdIndex 0 0 0 s4Pixels = 0 := by
  refine ⟨fun p c z t => ?_, by decide, by decide, by decide, by decide⟩
  cases h : p.dimensionOrder <;>
    simp [getIfdIndex, specLinearIndex, h, DimensionOrder.tail, cztIndex,
      OmePixels.sizeOf3]

/-- C6: filtering the S5 multi-file pixels with the local root UUID yields
sizeC = 1, sizeZ = 1, sizeT = 20, one channel Channel:0:0 and an IFD map
sending "0,0,t" to t for t < 20; and when every TiffData entry is local
(or there are none) no filtering happens. -/
theorem c6_filterPixelsForFile_s5 :
    filterPixelsForFile s5Pixels (some "urn:uuid:local") = some s5Expected ∧
    ∀ (p : OmePixels) (rootUuid : Option String),
      (∀ e ∈ p.tiffData, isLocalEntry rootUuid e = true) →
      filterPixelsForFile p rootUuid = none := by
  constructor
  · decide
  · intro p rootUuid h
    unfold filterPixelsForFile
    by_cases hlen : p.tiffData.length = 0
    · simp [hlen]
    · have hfilter : p.tiffData.filter (isLocalEntry rootUuid) = p.tiffData :=
        List.filter_eq_self.mpr h
      simp [hlen, hfilter]

/-- Witness for C6: a concrete all-local input filters to none. -/
theorem c6_filterPixelsForFile_s5_witness :
    filterPixelsForFile s4Pixels none = none :=
  c6_filterPixelsForFile_s5.2 s4Pixels none (by decide)

/-- C10: with a positive tile size, makeImageTags emits the tiled layout
exactly when the plane exceeds the tile size in some dimension, and when
the plane fits it emits a strip layout with RowsPerStrip equal to the
image height while slicePlane returns the whole plane as one strip. -/
theorem c10_tile_vs_strip (width height bits sf : Nat) (comp : CompressionOpt)
    (desc : Option String) (isSub : Bool) (tileSize : Nat)
    (plane : List Nat) (bpe : Nat) (hts : 0 < tileSize) :
    ((∃ tg ∈ makeImageTags width height bits sf comp desc isSub tileSize,
        tg.tag = TAG_TILE_WIDTH) ↔ (tileSize < width ∨ tileSize < height)) ∧
    (width ≤ tileSize → height ≤ tileSize →
      (∃ tg ∈ makeImageTags width height bits sf comp desc isSub tileSize,
        tg.tag = TAG_ROWS_PER_STRIP ∧ tg.values = .nums [height]) ∧
      (∀ tg ∈ makeImageTags width height bits sf comp desc isSub tileSize,
        tg.tag ≠ TAG_TILE_WIDTH ∧ tg.tag ≠ TAG_TILE_LENGTH) ∧
      slicePlane plane width height bpe tileSize = [plane]) := by
  by_cases hbig : tileSize < width ∨ tileSize < height
  · refine ⟨⟨fun _ => hbig, fun _ => ?_⟩, fun hw hh => ?_⟩
    · refine ⟨⟨TAG_TILE_WIDTH, TIFF_TYPE_LONG, .nums [tileSize]⟩, ?_, rfl⟩
      simp [makeImageTags, if_pos (And.intro hts hbig)]
    · exact absurd hbig (by omega)
  · have hcond : ¬(0 < tileSize ∧ (tileSize < width ∨ tileSize < height)) := by
      tauto
    have hnone : ∀ tg ∈ makeImageTags width height bits sf comp desc isSub
        tileSize, tg.tag ≠ TAG_TILE_WIDTH ∧ tg.tag ≠ TAG_TILE_LENGTH := by
      intro tg htg
      have hmem := List.mem_map_of_mem TiffTag.tag htg
      cases desc <;> cases isSub <;>
        · simp [makeImageTags, if_neg hcond, TAG_NEW_SUBFILE_TYPE,
            TAG_IMAGE_WIDTH, TAG_IMAGE_LENGTH, TAG_BITS_PER_SAMPLE,
            TAG_COMPRESSION, TAG_PHOTOMETRIC, TAG_SAMPLES_PER_PIXEL,
            TAG_PLANAR_CONFIGURATION, TAG_SAMPLE_FORMAT, TAG_ROWS_PER_STRIP,
            TAG_IMAGE_DESCRIPTION] at hmem
          simp only [TAG_TILE_WIDTH, TAG_TILE_LENGTH]
          omega
    refine ⟨⟨fun ⟨tg, htg, htag⟩ => absurd htag (hnone tg htg).1,
      fun h => absurd h hbig⟩, fun hw hh => ⟨?_, hnone, ?_⟩⟩
    · refine ⟨⟨TAG_ROWS_PER_STRIP, TIFF_TYPE_LONG, .nums [height]⟩, ?_, rfl, rfl⟩
      simp [makeImageTags, if_neg hcond]
    · simp [slicePlane, if_neg hcond]

/-- Witness for C10: a 256 by 256 plane written with the default tile size
256 is stripped, not tiled. -/
theorem c10_tile_vs_strip_witness :
    (∃ tg ∈ makeImageTags 256 256 8 1 .compNone none false DEFAULT_TILE_SIZE,
      tg.tag = TAG_ROWS_PER_STRIP ∧ tg.values = .nums [256]) ∧
    slicePlane [7] 256 256 1 DEFAULT_TILE_SIZE = [[7]] := by
  have h := c10_tile_vs_strip 256 256 8 1 .compNone none false
    DEFAULT_TILE_SIZE [7] 1 (by decide)
  have h2 := h.2 (by decide) (by decide)
  exact ⟨h2.1, h2.2.2⟩

/-- C8 counterexample: the key "1x/zarr.json" has a non-numeric level
component, yet parseStoreKey accepts it as metadata for level 1, because
JS parseInt ignores trailing garbage after a digit prefix. -/
theorem c8_counterexample :
    parseStoreKey "1x/zarr.json" =
      { level := 1, isMetadata := true, isRootMetadata := false,
        chunkIndices := none } := by decide

/-- C8 (amended): parseStoreKey treats "zarr.json" and "/zarr.json"
identically as the root-metadata parse; a key whose level component has no
parseable integer prefix (JS parseInt yields NaN) is rejected; a key whose
second component is neither "zarr.json" (for two components) nor "c" (for
three or more) is rejected; and a chunk key one of whose indices has no
parseable integer prefix is rejected. -/
theorem c8_parseStoreKey_amended :
    (parseStoreKey "zarr.json" =
      { level := -1, isMetadata := true, isRootMetadata := true,
        chunkIndices := none } ∧
     parseStoreKey "/zarr.json" = parseStoreKey "zarr.json") ∧
    (∀ (key lvl : String),
      jsSplitSlash (normalizeKey key) = [lvl, "zarr.json"] →
      parseIntJs lvl = none → parseStoreKey key = rejectedKey) ∧
    (∀ (key p0 p1 : String) (rest : List String),
      jsSplitSlash (normalizeKey key) = p0 :: p1 :: rest →
      (rest = [] ∧ p1 ≠ "zarr.json") ∨ (rest ≠ [] ∧ p1 ≠ "c") →
      parseStoreKey key = rejectedKey) ∧
    (∀ (key lvl : String) (rest : List String),
      jsSplitSlash (normalizeKey key) = lvl :: "c" :: rest →
      rest ≠ [] → (∃ r ∈ rest, parseIntJs r = none) →
      parseStoreKey key = rejectedKey) := by
  refine ⟨⟨by decide, by decide⟩, ?_, ?_, ?_⟩
  · intro key lvl hsplit hnan
    by_cases hroot : normalizeKey key = "zarr.json"
    · rw [hroot] at hsplit
      have h2 : ["zarr.json"] = [lvl, "zarr.json"] := by
        rw [← hsplit]; decide
      simp at h2
    · simp [parseStoreKey, hroot, hsplit, hnan]
  · intro key p0 p1 rest hsplit hbad
    by_cases hroot : normalizeKey key = "zarr.json"
    · rw [hroot] at hsplit
      have h2 : ["zarr.json"] = p0 :: p1 :: rest := by
        rw [← hsplit]; decide
      simp at h2
    · rcases hbad with ⟨hre, hne⟩ | ⟨hre, hne⟩
      · subst hre
        simp [parseStoreKey, hroot, hsplit, hne]
      · have hlen : ¬((p0 :: p1 :: rest).length = 2 ∧
            (p0 :: p1 :: rest).getD 1 "" = "zarr.json") := by
          intro ⟨h2, _⟩
          simp at h2
          exact hre h2
        simp only [parseStoreKey, hroot, if_false, hsplit]
        rw [if_neg hlen, if_neg]
        intro ⟨_, hc⟩
        simp at hc
        exact hne hc
  · intro key lvl rest hsplit hne hnan
    by_cases hroot : normalizeKey key = "zarr.json"
    · rw [hroot] at hsplit
      have h2 : ["zarr.json"] = lvl :: "c" :: rest := by
        rw [← hsplit]; decide
      simp at h2
    · have hlen : ¬((lvl :: "c" :: rest).length = 2 ∧
          (lvl :: "c" :: rest).getD 1 "" = "zarr.json") := by
        intro ⟨_, hc⟩
        simp at hc
      have hpos : 0 < rest.length := List.length_pos.mpr hne
      have hany : (rest.map parseIntJs).any Option.isNone = true := by
        rcases hnan with ⟨r, hr, hrn⟩
        simp only [List.any_eq_true]
        exact ⟨parseIntJs r, List.mem_map_of_mem parseIntJs hr, by
          simp [hrn]⟩
      simp only [parseStoreKey, hroot, if_false, hsplit]
      rw [if_neg hlen, if_pos ⟨by simp; omega, by simp⟩]
      simp only [List.getD_cons_zero, List.drop_succ_cons, List.drop_zero]
      rcases hlvl : parseIntJs lvl with _ | v <;> simp [hlvl, hany]

/-- Witness for C8: a level with no digit prefix is rejected, and a chunk
key with a non-numeric index is rejected. -/
theorem c8_parseStoreKey_amended_witness :
    parseStoreKey "abc/zarr.json" = rejectedKey ∧
    parseStoreKey "0/c/xy" = rejectedKey :=
  ⟨c8_parseStoreKey_amended.2.1 "abc/zarr.json" "abc" (by decide) (by decide),
   c8_parseStoreKey_amended.2.2.2 "0/c/xy" "0" ["xy"] (by decide) (by decide)
     ⟨"xy", by decide, by decide⟩⟩

/-! ### Helper lemmas on writeBytes and chunk shapes -/

theorem writeBytes_length_of_le (dst : List Nat) (off : Nat) (src : List Nat)
    (h : off + src.length ≤ dst.length) :
    (writeBytes dst off src).length = dst.length := by
  simp only [writeBytes, List.length_append, List.length_take,
    List.length_drop]
  omega

theorem length_foldl_writeBytes (rows : List Nat) (off : Nat → Nat)
    (src : Nat → List Nat) (init : List Nat)
    (h : ∀ r ∈ rows, off r + (src r).length ≤ init.length) :
    (rows.foldl (fun acc r => writeBytes acc (off r) (src r)) init).length =
      init.length := by
  induction rows generalizing init with
  | nil => rfl
  | cons r rs ih =>
    simp only [List.foldl_cons]
    have h1 : (writeBytes init (off r) (src r)).length = init.length :=
      writeBytes_length_of_le _ _ _ (h r (List.mem_cons_self _ _))
    rw [ih (writeBytes init (off r) (src r))
      (fun r' hr' => h1 ▸ h r' (List.mem_cons_of_mem _ hr')), h1]

theorem computeChunkShape_eq (tw th m : Nat) :
    computeChunkShape tw th (m + 2) = List.replicate m 1 ++ [th, tw] := by
  induction m with
  | zero => rfl
  | succ k ih =>
    show ((List.replicate (k + 3) 1).set (k + 1) th).set (k + 2) tw = _
    have : List.replicate (k + 3) 1 = 1 :: List.replicate (k + 2) 1 := rfl
    rw [this, List.set_cons_succ, List.set_cons_succ]
    have h2 : ((List.replicate (k + 2) 1).set k th).set (k + 1) tw =
        computeChunkShape tw th (k + 2) := rfl
    rw [h2, ih, List.replicate_succ, List.cons_append]

theorem computeChunkShape_prod (tw th m : Nat) :
    (computeChunkShape tw th (m + 2)).prod = th * tw := by
  simp [computeChunkShape_eq]

theorem computeChunkShape_getD_x (tw th m : Nat) :
    (computeChunkShape tw th (m + 2)).getD (m + 1) 0 = tw := by
  rw [computeChunkShape_eq]
  rw [List.getD_eq_getElem?_getD, List.getElem?_append_right (by simp)]
  simp

theorem computeChunkShape_getD_y (tw th m : Nat) :
    (computeChunkShape tw th (m + 2)).getD m 0 = th := by
  rw [computeChunkShape_eq]
  rw [List.getD_eq_getElem?_getD, List.getElem?_append_right (by simp)]
  simp

theorem padEdgeChunk_length (data : List Nat)
    (srcW srcH dstW dstH bpe : Nat) (hw : srcW ≤ dstW) (hh : srcH ≤ dstH) :
    (padEdgeChunk data srcW srcH dstW dstH bpe).length =
      dstW * dstH * bpe := by
  have hbound : ∀ r ∈ List.range srcH,
      r * (dstW * bpe) +
        ((data.drop (r * (srcW * bpe))).take (srcW * bpe)).length ≤
      (List.replicate (dstW * dstH * bpe) 0).length := by
    intro r hr
    have hr' : r < srcH := List.mem_range.mp hr
    have h1 : ((data.drop (r * (srcW * bpe))).take (srcW * bpe)).length ≤
        srcW * bpe := by
      simp [List.length_take]
    have h2 : r * (dstW * bpe) + srcW * bpe ≤ (r + 1) * (dstW * bpe) := by
      have : srcW * bpe ≤ dstW * bpe := Nat.mul_le_mul_right bpe hw
      calc r * (dstW * bpe) + srcW * bpe ≤ r * (dstW * bpe) + dstW * bpe :=
            by omega
      _ = (r + 1) * (dstW * bpe) := by ring
    have h3 : (r + 1) * (dstW * bpe) ≤ dstH * (dstW * bpe) :=
      Nat.mul_le_mul_right _ (by omega)
    have h4 : dstH * (dstW * bpe) = dstW * dstH * bpe := by ring
    simp only [List.length_replicate]
    omega
  have := length_foldl_writeBytes (List.range srcH)
    (fun r => r * (dstW * bpe))
    (fun r => (data.drop (r * (srcW * bpe))).take (srcW * bpe))
    (List.replicate (dstW * dstH * bpe) 0) hbound
  simpa [padEdgeChunk] using this

/-! ### Lemmas on readChunk -/

theorem readChunk_length (raster : RasterFn) (sel : JsPlaneSelection)
    (level : Nat) (cy cx : Int) (ch cw iw ih : Nat) (dtype : ZarrDataType)
    (hraster : ∀ l t r b, (raster sel level l t r b).length =
      ((r - l).toNat * (b - t).toNat) * bytesPerElement dtype) :
    (readChunk raster sel level cy cx ch cw iw ih dtype).length =
      cw * ch * bytesPerElement dtype := by
  simp only [readChunk, computePixelWindow]
  split_ifs with h1 h2
  · simp
  · refine padEdgeChunk_length _ _ _ _ _ _ ?_ ?_ <;> omega
  · push_neg at h1 h2
    rw [encodeChunkBytes, hraster]
    have hw : (min (cx * (cw : Int) + (cw : Int)) (iw : Int) -
        cx * (cw : Int)).toNat = cw := by omega
    have hh : (min (cy * (ch : Int) + (ch : Int)) (ih : Int) -
        cy * (ch : Int)).toNat = ch := by omega
    rw [hw, hh, if_pos (by ring), hraster, hw, hh]

theorem readChunk_zero (raster : RasterFn) (sel : JsPlaneSelection)
    (level : Nat) (cy cx : Int) (ch cw iw ih : Nat) (dtype : ZarrDataType)
    (hout :
      (computePixelWindow cx cy cw ch iw ih).2.2.1 -
        (computePixelWindow cx cy cw ch iw ih).1 ≤ 0 ∨
      (computePixelWindow cx cy cw ch iw ih).2.2.2 -
        (computePixelWindow cx cy cw ch iw ih).2.1 ≤ 0) :
    readChunk raster sel level cy cx ch cw iw ih dtype =
      List.replicate (cw * ch * bytesPerElement dtype) 0 := by
  unfold readChunk
  rw [if_pos hout]

/-- C2: for a chunk key at a level inside the pyramid, the store's get
serves a buffer whose byte length is exactly the product of the chunk
shape components at that level times the element width; and when the
chunk's pixel window lies entirely outside the image, the buffer is all
zeros of that same length. -/
theorem c2_chunk_byte_length (store : TiffStoreModel) (st : StoreState)
    (key : String) (L : Nat) (idxs : List Int) (tw th : Nat)
    (hkey : parseStoreKey key =
      { level := (L : Int), isMetadata := false, isRootMetadata := false,
        chunkIndices := some idxs })
    (hL : L < store.levels)
    (hn : 2 ≤ store.dimNames.length)
    (hy : store.dimNames.indexOf "y" = store.dimNames.length - 2)
    (hx : store.dimNames.indexOf "x" = store.dimNames.length - 1)
    (hcs : store.chunkShapes.getD L [] =
      computeChunkShape tw th store.dimNames.length)
    (hraster : ∀ sel lvl l t r b, (store.raster sel lvl l t r b).length =
      ((r - l).toNat * (b - t).toNat) * bytesPerElement store.dtype) :
    ∃ bytes,
      (store.get st key).1 = some bytes ∧
      bytes.length = (store.chunkShapes.getD L []).prod *
        bytesPerElement store.dtype ∧
      ∀ wleft wtop wright wbottom : Int,
        computePixelWindow (idxs.getD (store.dimNames.length - 1) 0)
            (idxs.getD (store.dimNames.length - 2) 0) (tw : Int) (th : Int)
            (((store.shapes.getD L []).getD (store.dimNames.length - 1) 0 :
              Nat) : Int)
            (((store.shapes.getD L []).getD (store.dimNames.length - 2) 0 :
              Nat) : Int) =
          (wleft, wtop, wright, wbottom) →
        (wright ≤ wleft ∨ wbottom ≤ wtop) →
        bytes = List.replicate ((store.chunkShapes.getD L []).prod *
          bytesPerElement store.dtype) 0 := by
  obtain ⟨m, hm⟩ : ∃ m, store.dimNames.length = m + 2 :=
    ⟨store.dimNames.length - 2, by omega⟩
  have hget : store.get st key = (store.getChunkData (L : Int) idxs, st) := by
    simp [TiffStoreModel.get, hkey]
  have hrange : ¬((L : Int) < 0 ∨ (store.levels : Int) ≤ (L : Int)) := by
    push_neg
    constructor
    · exact Int.natCast_nonneg L
    · exact_mod_cast hL
  have hchunk : store.getChunkData (L : Int) idxs =
      some (readChunk store.raster
        (store.indicesToSelection idxs) L
        (idxs.getD (store.dimNames.length - 2) 0)
        (idxs.getD (store.dimNames.length - 1) 0)
        th tw
        ((store.shapes.getD L []).getD (store.dimNames.length - 1) 0)
        ((store.shapes.getD L []).getD (store.dimNames.length - 2) 0)
        store.dtype) := by
    unfold TiffStoreModel.getChunkData
    rw [if_neg hrange]
    have hlv : ((L : Int)).toNat = L := Int.toNat_natCast L
    have hcw : (store.chunkShapes.getD ((L : Int)).toNat []).getD
        (store.dimNames.indexOf "x") 0 = tw := by
      rw [hlv, hx, hcs, hm]
      have : m + 2 - 1 = m + 1 := by omega
      rw [this, computeChunkShape_getD_x]
    have hch : (store.chunkShapes.getD ((L : Int)).toNat []).getD
        (store.dimNames.indexOf "y") 0 = th := by
      rw [hlv, hy, hcs, hm]
      have : m + 2 - 2 = m := by omega
      rw [this, computeChunkShape_getD_y]
    rw [hx] at hcw
    rw [hy] at hch
    rw [hlv] at hcw hch
    simp only [hlv, hy, hx]
    rw [hcw, hch]
  refine ⟨_, by rw [hget, hchunk], ?_, ?_⟩
  · rw [readChunk_length _ _ _ _ _ _ _ _ _ _ (hraster _ _), hcs, hm,
      computeChunkShape_prod]
    ring
  · intro wl wt wr wb heq hout
    rw [readChunk_zero _ _ _ _ _ _ _ _ _ _ (by rw [heq]; simpa using hout),
      hcs, hm, computeChunkShape_prod]
    ring_nf

/-- Witness for C2 at a concrete store and key. -/
theorem c2_chunk_byte_length_witness :
    ∃ bytes,
      (({ levels := 1, dimNames := ["y", "x"], shapes := [[64, 64]],
          chunkShapes := [[64, 64]], dtype := .uint8,
          multiscale := { name := none, axes := [], datasets := [] },
          omero := none,
          stringifyGroup := fun _ => [], stringifyArray := fun _ => [],
          raster := fun _ _ l t r b =>
            List.replicate ((r - l).toNat * (b - t).toNat) 0 } :
        TiffStoreModel).get
          { rootJsonBytes := none, arrayJsonCache := [] } "0/c/0/0").1 =
        some bytes ∧
      bytes.length = 4096 := by
  obtain ⟨bytes, h1, h2, _⟩ := c2_chunk_byte_length
    ({ levels := 1, dimNames := ["y", "x"], shapes := [[64, 64]],
       chunkShapes := [[64, 64]], dtype := .uint8,
       multiscale := { name := none, axes := [], datasets := [] },
       omero := none,
       stringifyGroup := fun _ => [], stringifyArray := fun _ => [],
       raster := fun _ _ l t r b =>
         List.replicate ((r - l).toNat * (b - t).toNat) 0 })
    { rootJsonBytes := none, arrayJsonCache := [] } "0/c/0/0" 0 [0, 0] 64 64
    (by decide) (by decide) (by decide) (by decide) (by decide) (by decide)
    (by intro sel lvl l t r b; simp [bytesPerElement])
  exact ⟨bytes, h1, by rw [h2]; decide⟩

/-! ### Lemmas on the metadata caches -/

theorem lookupCache_append (m : List (Nat × List Nat)) (k : Nat)
    (b : List Nat) (h : lookupCache m k = none) :
    lookupCache (m ++ [(k, b)]) k = some b := by
  unfold lookupCache at h ⊢
  rw [List.find?_append]
  cases hf : m.find? (fun kv => kv.1 = k) with
  | some kv => rw [hf] at h; simp at h
  | none => simp

theorem getRootGroupJson_stable (store : TiffStoreModel) (st : StoreState) :
    store.getRootGroupJson (store.getRootGroupJson st).2 =
      store.getRootGroupJson st := by
  unfold TiffStoreModel.getRootGroupJson
  cases hst : st.rootJsonBytes <;> simp [hst]

theorem getArrayJson_stable (store : TiffStoreModel) (st : StoreState)
    (level : Int) :
    store.getArrayJson (store.getArrayJson st level).2 level =
      store.getArrayJson st level := by
  unfold TiffStoreModel.getArrayJson
  by_cases h : level < 0 ∨ (store.levels : Int) ≤ level
  · simp [h]
  · simp only [if_neg h]
    cases hc : lookupCache st.arrayJsonCache level.toNat with
    | some b => simp [hc]
    | none => simp [hc, lookupCache_append _ _ _ hc]

theorem getArrayJson_isSome (store : TiffStoreModel) (st : StoreState)
    (level : Int) (h : ¬(level < 0 ∨ (store.levels : Int) ≤ level)) :
    (store.getArrayJson st level).1.isSome := by
  unfold TiffStoreModel.getArrayJson
  rw [if_neg h]
  cases hc : lookupCache st.arrayJsonCache level.toNat <;> simp [hc]

/-- C9: two successive get calls for the same metadata key return the same
bytes, and the second call leaves the cache state unchanged: the document
is serialised once on first request and the cached byte string is returned
afterwards. -/
theorem c9_metadata_byte_identity (store : TiffStoreModel) (st : StoreState)
    (key : String)
    (hmeta : (parseStoreKey key).isMetadata = true)
    (hlvl : (parseStoreKey key).isRootMetadata = true ∨
      (0 ≤ (parseStoreKey key).level ∧
        (parseStoreKey key).level < (store.levels : Int))) :
    (store.get st key).1.isSome ∧
    (store.get (store.get st key).2 key).1 = (store.get st key).1 ∧
    (store.get (store.get st key).2 key).2 = (store.get st key).2 := by
  by_cases hroot : (parseStoreKey key).isRootMetadata = true
  · have hr := getRootGroupJson_stable store st
    simp only [TiffStoreModel.get, hroot, if_true]
    refine ⟨by simp, ?_, ?_⟩ <;> rw [hr]
  · have hroot' : (parseStoreKey key).isRootMetadata = false := by
      simpa using hroot
    rcases hlvl with h | ⟨h0, hlt⟩
    · exact absurd h hroot
    have hcond : (parseStoreKey key).isMetadata = true ∧
        0 ≤ (parseStoreKey key).level := ⟨hmeta, h0⟩
    have hrange : ¬((parseStoreKey key).level < 0 ∨
        (store.levels : Int) ≤ (parseStoreKey key).level) := by omega
    have ha := getArrayJson_stable store st (parseStoreKey key).level
    simp only [TiffStoreModel.get, hroot', Bool.false_eq_true, if_false,
      if_pos hcond]
    refine ⟨getArrayJson_isSome store st _ hrange, ?_, ?_⟩ <;> rw [ha]

/-- Witness for C9 at a concrete store and key. -/
theorem c9_metadata_byte_identity_witness :
    (({ levels := 1, dimNames := ["y", "x"], shapes := [[8, 8]],
        chunkShapes := [[8, 8]], dtype := .uint8,
        multiscale := { name := none, axes := [], datasets := [] },
        omero := none,
        stringifyGroup := fun _ => [1, 2], stringifyArray := fun _ => [3, 4],
        raster := fun _ _ _ _ _ _ => [] } : TiffStoreModel).get
        { rootJsonBytes := none, arrayJsonCache := [] } "zarr.json").1.isSome :=
  (c9_metadata_byte_identity _
    { rootJsonBytes := none, arrayJsonCache := [] } "zarr.json"
    (by decide) (Or.inl (by decide))).1

/-! ### Pointwise lemmas for tile slicing -/

theorem writeBytes_getD (dst : List Nat) (off : Nat) (src : List Nat)
    (d : Nat) (h : off + src.length ≤ dst.length) (i : Nat) :
    (writeBytes dst off src).getD i d =
      if i < off then dst.getD i d
      else if i < off + src.length then src.getD (i - off) d
      else dst.getD i d := by
  have hmin : min off dst.length = off := by omega
  simp only [writeBytes, List.getD_eq_getElem?_getD, List.getElem?_append,
    List.getElem?_take, List.length_take, List.length_append, hmin,
    List.getElem?_drop]
  split_ifs <;> try rfl
  all_goals (
    have heq : off + src.length + (i - (off + src.length)) = i := by omega
    rw [heq])

theorem drop_take_getD (plane : List Nat) (a b j : Nat) (d : Nat)
    (hj : j < b) :
    ((plane.drop a).take b).getD j d = plane.getD (a + j) d := by
  simp only [List.getD_eq_getElem?_getD, List.getElem?_take, if_pos hj,
    List.getElem?_drop]

theorem replicate_getD (n v i d : Nat) :
    (List.replicate n v).getD i d = if i < n then v else d := by
  simp only [List.getD_eq_getElem?_getD, List.getElem?_replicate]
  by_cases h : i < n
  · rw [if_pos h, if_pos h]; rfl
  · rw [if_neg h, if_neg h]; rfl

theorem foldRows_length (plane : List Nat) (tRB vRB tileBytes : Nat)
    (srcOff : Nat → Nat) (n : Nat)
    (hbytes : ∀ r, r < n → r * tRB + vRB ≤ tileBytes) :
    ((List.range n).foldl
      (fun tile row => writeBytes tile (row * tRB)
        ((plane.drop (srcOff row)).take vRB))
      (List.replicate tileBytes 0)).length = tileBytes := by
  have h := length_foldl_writeBytes (List.range n) (fun r => r * tRB)
    (fun r => (plane.drop (srcOff r)).take vRB)
    (List.replicate tileBytes 0) ?_
  · simpa using h
  · intro r hr
    have := hbytes r (List.mem_range.mp hr)
    simp only [List.length_take, List.length_replicate, List.length_drop]
    omega

theorem foldRows_getD (plane : List Nat) (tRB vRB tileBytes : Nat)
    (srcOff : Nat → Nat) (n : Nat) (htRB : 0 < tRB) (hv : vRB ≤ tRB)
    (hbytes : ∀ r, r < n → r * tRB + vRB ≤ tileBytes)
    (hslice : ∀ r, r < n → srcOff r + vRB ≤ plane.length)
    (i : Nat) (hi : i < tileBytes) :
    ((List.range n).foldl
      (fun tile row => writeBytes tile (row * tRB)
        ((plane.drop (srcOff row)).take vRB))
      (List.replicate tileBytes 0)).getD i 0 =
      if i / tRB < n ∧ i % tRB < vRB then
        plane.getD (srcOff (i / tRB) + i % tRB) 0
      else 0 := by
  induction n with
  | zero =>
    simp only [List.range_zero, List.foldl_nil, replicate_getD, if_pos hi]
    rw [if_neg (by simp)]
  | succ k ih =>
    rw [show List.range (k + 1) = List.range k ++ [k] by
      simp [List.range_succ], List.foldl_append]
    simp only [List.foldl_cons, List.foldl_nil]
    have hFlen : ((List.range k).foldl
        (fun tile row => writeBytes tile (row * tRB)
          ((plane.drop (srcOff row)).take vRB))
        (List.replicate tileBytes 0)).length = tileBytes :=
      foldRows_length plane tRB vRB tileBytes srcOff k
        (fun r hr => hbytes r (by omega))
    have hslicelen : ((plane.drop (srcOff k)).take vRB).length = vRB := by
      have := hslice k (by omega)
      simp only [List.length_take, List.length_drop]
      omega
    have hb : k * tRB + ((plane.drop (srcOff k)).take vRB).length ≤
        ((List.range k).foldl
          (fun tile row => writeBytes tile (row * tRB)
            ((plane.drop (srcOff row)).take vRB))
          (List.replicate tileBytes 0)).length := by
      rw [hFlen, hslicelen]
      exact hbytes k (Nat.lt_succ_self k)
    rw [writeBytes_getD _ _ _ _ hb i, hslicelen]
    by_cases h1 : i < k * tRB
    · rw [if_pos h1, ih (fun r hr => hbytes r (by omega))
        (fun r hr => hslice r (by omega))]
      have hk : i / tRB < k := (Nat.div_lt_iff_lt_mul htRB).mpr (by omega)
      have hk1 : i / tRB < k + 1 := by omega
      simp only [hk, hk1, true_and]
    · rw [if_neg h1]
      by_cases h2 : i < k * tRB + vRB
      · rw [if_pos h2]
        have hj : i - k * tRB < vRB := by omega
        have hieq : i = tRB * k + (i - k * tRB) := by
          rw [Nat.mul_comm]; omega
        have hdiv : i / tRB = k := by
          rw [hieq, Nat.mul_add_div htRB, Nat.div_eq_of_lt (by omega)]
          omega
        have hmod : i % tRB = i - k * tRB := by
          rw [hieq, Nat.mul_add_mod, Nat.mod_eq_of_lt (by omega)]
          omega
        rw [drop_take_getD _ _ _ _ _ hj]
        rw [if_pos ⟨by omega, by omega⟩, hdiv, hmod]
      · rw [if_neg h2]
        rw [ih (fun r hr => hbytes r (by omega))
          (fun r hr => hslice r (by omega))]
        have hge : k ≤ i / tRB := (Nat.le_div_iff_mul_le htRB).mpr (by omega)
        rw [if_neg (by omega)]
        by_cases hj : i < (k + 1) * tRB
        · have hj2 : i < k * tRB + tRB := by
            have hsm : (k + 1) * tRB = k * tRB + tRB := by ring
            omega
          have hieq : i = tRB * k + (i - k * tRB) := by
            rw [Nat.mul_comm]; omega
          have hdiv : i / tRB = k := by
            rw [hieq, Nat.mul_add_div htRB,
              Nat.div_eq_of_lt (by omega)]
            omega
          have hmod : i % tRB = i - k * tRB := by
            rw [hieq, Nat.mul_add_mod, Nat.mod_eq_of_lt (by omega)]
            omega
          rw [if_neg (by omega)]
        · have hge1 : k + 1 ≤ i / tRB :=
            (Nat.le_div_iff_mul_le htRB).mpr (by omega)
          rw [if_neg (by omega)]

theorem flatMap_range_map_length {α : Type} (nY nX : Nat)
    (f : Nat → Nat → α) :
    ((List.range nY).flatMap fun ty => (List.range nX).map (f ty)).length =
      nY * nX := by
  induction nY with
  | zero => simp
  | succ m ih =>
    rw [List.range_succ, List.flatMap_append]
    simp only [List.length_append, ih, List.flatMap_cons, List.flatMap_nil,
      List.append_nil, List.length_map, List.length_range]
    ring

theorem flatMap_range_map_getD {α : Type} (d : α) (nY nX : Nat)
    (f : Nat → Nat → α) (k : Nat) (hk : k < nY * nX) (hnX : 0 < nX) :
    ((List.range nY).flatMap fun ty => (List.range nX).map (f ty)).getD k d =
      f (k / nX) (k % nX) := by
  induction nY with
  | zero => exact absurd hk (by omega)
  | succ m ih =>
    rw [List.range_succ, List.flatMap_append]
    have hlen : ((List.range m).flatMap fun ty =>
        (List.range nX).map (f ty)).length = m * nX :=
      flatMap_range_map_length m nX f
    by_cases hc : k < m * nX
    · have happ : (((List.range m).flatMap fun ty =>
          (List.range nX).map (f ty)) ++
            [m].flatMap fun ty => (List.range nX).map (f ty)).getD k d =
          ((List.range m).flatMap fun ty =>
            (List.range nX).map (f ty)).getD k d := by
        simp only [List.getD_eq_getElem?_getD, List.getElem?_append,
          if_pos (hlen ▸ hc)]
      rw [happ, ih hc]
    · have hk2 : k < m * nX + nX := by
        have : (m + 1) * nX = m * nX + nX := by ring
        omega
      have happ : (((List.range m).flatMap fun ty =>
          (List.range nX).map (f ty)) ++
            [m].flatMap fun ty => (List.range nX).map (f ty)).getD k d =
          ([m].flatMap fun ty => (List.range nX).map (f ty)).getD
            (k - m * nX) d := by
        simp only [List.getD_eq_getElem?_getD]
        rw [List.getElem?_append, if_neg (by omega : ¬k < _), hlen]
      rw [happ]
      simp only [List.flatMap_cons, List.flatMap_nil, List.append_nil]
      have hj : k - m * nX < nX := by omega
      have hmap : ((List.range nX).map (f m)).getD (k - m * nX) d =
          f m (k - m * nX) := by
        simp [List.getD_eq_getElem?_getD, List.getElem?_map,
          List.getElem?_range hj]
      rw [hmap]
      have hieq : k = nX * m + (k - m * nX) := by
        rw [Nat.mul_comm]; omega
      have hdiv : k / nX = m := by
        rw [hieq, Nat.mul_add_div hnX, Nat.div_eq_of_lt hj]
        omega
      have hmod : k % nX = k - m * nX := by
        conv_lhs => rw [hieq]
        rw [Nat.mul_add_mod, Nat.mod_eq_of_lt hj]
      rw [hdiv, hmod]

theorem lt_of_lt_ceilDiv (y t H : Nat) (ht : 0 < t)
    (hy : y < (H + t - 1) / t) : y * t < H := by
  have h1 : (y + 1) * t ≤ ((H + t - 1) / t) * t :=
    Nat.mul_le_mul_right t (by omega)
  have h2 : ((H + t - 1) / t) * t ≤ H + t - 1 := Nat.div_mul_le_self _ _
  have h3 : (y + 1) * t = y * t + t := by ring
  omega

theorem ceilDiv_pos (W tW : Nat) (hW : 1 ≤ W) (htW : 1 ≤ tW) :
    0 < (W + tW - 1) / tW :=
  (Nat.le_div_iff_mul_le htW).mpr (by omega)

theorem mul_add_lt_mul_iff (b bpp col v : Nat) (hb : b < bpp) :
    col * bpp + b < v * bpp ↔ col < v := by
  constructor
  · intro h
    by_contra hcv
    push_neg at hcv
    have : v * bpp ≤ col * bpp := Nat.mul_le_mul_right bpp hcv
    omega
  · intro h
    have h1 : col * bpp + b < (col + 1) * bpp := by
      have : (col + 1) * bpp = col * bpp + bpp := by ring
      omega
    have h2 : (col + 1) * bpp ≤ v * bpp := Nat.mul_le_mul_right bpp (by omega)
    omega

theorem sliceTiles_tile_length (plane : List Nat)
    (W H bpp tW tH ty tx : Nat) :
    ((List.range (min tH (H - ty * tH))).foldl
      (fun tile r => writeBytes tile (r * (tW * bpp))
        ((plane.drop ((ty * tH + r) * (W * bpp) + tx * tW * bpp)).take
          (min tW (W - tx * tW) * bpp)))
      (List.replicate (tW * tH * bpp) 0)).length = tW * tH * bpp := by
  refine foldRows_length plane (tW * bpp) (min tW (W - tx * tW) * bpp)
    (tW * tH * bpp) (fun r => (ty * tH + r) * (W * bpp) + tx * tW * bpp)
    (min tH (H - ty * tH)) ?_
  intro r hr
  have hvle : min tW (W - tx * tW) * bpp ≤ tW * bpp :=
    Nat.mul_le_mul_right _ (min_le_left _ _)
  have h1 : r * (tW * bpp) + min tW (W - tx * tW) * bpp ≤
      (r + 1) * (tW * bpp) := by
    have : (r + 1) * (tW * bpp) = r * (tW * bpp) + tW * bpp := by ring
    omega
  have h2 : (r + 1) * (tW * bpp) ≤ tH * (tW * bpp) :=
    Nat.mul_le_mul_right _ (by omega)
  have h3 : tH * (tW * bpp) = tW * tH * bpp := by ring
  omega

theorem sliceTiles_tile_getD (plane : List Nat)
    (W H bpp tW tH ty tx : Nat)
    (hlen : plane.length = W * H * bpp)
    (hty : ty * tH < H) (htx : tx * tW < W)
    (row col b : Nat) (hrow : row < tH) (hcol : col < tW) (hb : b < bpp) :
    ((List.range (min tH (H - ty * tH))).foldl
      (fun tile r => writeBytes tile (r * (tW * bpp))
        ((plane.drop ((ty * tH + r) * (W * bpp) + tx * tW * bpp)).take
          (min tW (W - tx * tW) * bpp)))
      (List.replicate (tW * tH * bpp) 0)).getD
        ((row * tW + col) * bpp + b) 0 =
      if ty * tH + row < H ∧ tx * tW + col < W then
        plane.getD (((ty * tH + row) * W + (tx * tW + col)) * bpp + b) 0
      else 0 := by
  have hbpp : 0 < bpp := by omega
  have htRB : 0 < tW * bpp := Nat.mul_pos (by omega) hbpp
  have hvle : min tW (W - tx * tW) * bpp ≤ tW * bpp :=
    Nat.mul_le_mul_right _ (min_le_left _ _)
  have hbytes : ∀ r, r < min tH (H - ty * tH) →
      r * (tW * bpp) + min tW (W - tx * tW) * bpp ≤ tW * tH * bpp := by
    intro r hr
    have h1 : (r + 1) * (tW * bpp) = r * (tW * bpp) + tW * bpp := by ring
    have h2 : (r + 1) * (tW * bpp) ≤ tH * (tW * bpp) :=
      Nat.mul_le_mul_right _ (by omega)
    have h3 : tH * (tW * bpp) = tW * tH * bpp := by ring
    omega
  have hslice : ∀ r, r < min tH (H - ty * tH) →
      ((ty * tH + r) * (W * bpp) + tx * tW * bpp) +
        min tW (W - tx * tW) * bpp ≤ plane.length := by
    intro r hr
    rw [hlen]
    have hs : ty * tH + r + 1 ≤ H := by omega
    have h1 : (ty * tH + r + 1) * (W * bpp) ≤ H * (W * bpp) :=
      Nat.mul_le_mul_right _ hs
    have h2 : (ty * tH + r + 1) * (W * bpp) =
        (ty * tH + r) * (W * bpp) + W * bpp := by ring
    have h3 : tx * tW * bpp + min tW (W - tx * tW) * bpp =
        (tx * tW + min tW (W - tx * tW)) * bpp := by ring
    have h4 : tx * tW + min tW (W - tx * tW) ≤ W := by omega
    have h5 : (tx * tW + min tW (W - tx * tW)) * bpp ≤ W * bpp :=
      Nat.mul_le_mul_right _ h4
    have h6 : H * (W * bpp) = W * H * bpp := by ring
    omega
  have hq : row * tW + col + 1 ≤ tH * tW := by
    have h1 : row * tW + col + 1 ≤ (row + 1) * tW := by
      have : (row + 1) * tW = row * tW + tW := by ring
      omega
    have h2 : (row + 1) * tW ≤ tH * tW := Nat.mul_le_mul_right _ (by omega)
    omega
  have hi : (row * tW + col) * bpp + b < tW * tH * bpp := by
    have h1 : (row * tW + col) * bpp + b < (row * tW + col + 1) * bpp := by
      have : (row * tW + col + 1) * bpp = (row * tW + col) * bpp + bpp := by
        ring
      omega
    have h2 : (row * tW + col + 1) * bpp ≤ (tH * tW) * bpp :=
      Nat.mul_le_mul_right _ hq
    have h3 : (tH * tW) * bpp = tW * tH * bpp := by ring
    omega
  rw [foldRows_getD plane (tW * bpp) (min tW (W - tx * tW) * bpp)
    (tW * tH * bpp) (fun r => (ty * tH + r) * (W * bpp) + tx * tW * bpp)
    (min tH (H - ty * tH)) htRB hvle hbytes hslice
    ((row * tW + col) * bpp + b) hi]
  have hcb : col * bpp + b < tW * bpp :=
    (mul_add_lt_mul_iff b bpp col tW hb).mpr hcol
  have hieq : (row * tW + col) * bpp + b =
      (tW * bpp) * row + (col * bpp + b) := by ring
  have hdiv : ((row * tW + col) * bpp + b) / (tW * bpp) = row := by
    rw [hieq, Nat.mul_add_div htRB, Nat.div_eq_of_lt hcb]
    omega
  have hmod : ((row * tW + col) * bpp + b) % (tW * bpp) = col * bpp + b := by
    conv_lhs => rw [hieq]
    rw [Nat.mul_add_mod, Nat.mod_eq_of_lt hcb]
  rw [hdiv, hmod]
  have hcv : col * bpp + b < min tW (W - tx * tW) * bpp ↔
      col < min tW (W - tx * tW) :=
    mul_add_lt_mul_iff b bpp col _ hb
  have hidx : (fun r => (ty * tH + r) * (W * bpp) + tx * tW * bpp) row +
      (col * bpp + b) =
      ((ty * tH + row) * W + (tx * tW + col)) * bpp + b := by
    show (ty * tH + row) * (W * bpp) + tx * tW * bpp + (col * bpp + b) = _
    ring
  rw [hidx]
  by_cases hcond : ty * tH + row < H ∧ tx * tW + col < W
  · rw [if_pos ⟨by omega, hcv.mpr (by omega)⟩, if_pos hcond]
  · rw [if_neg ?_, if_neg hcond]
    intro ⟨ha, hb2⟩
    have := hcv.mp hb2
    exact hcond ⟨by omega, by omega⟩

/-- **C7.** For every plane of width `W ≥ 1`, height `H ≥ 1` and tile
dimensions `tileW, tileH ≥ 1`, `sliceTiles` returns exactly
`ceil(W/tileW) * ceil(H/tileH)` tiles in row-major order (tile `(ty, tx)`
sits at list position `ty * tilesAcross + tx`), each of exactly
`tileW * tileH * bytesPerPixel` bytes; a byte of tile `(ty, tx)` at
in-tile position `(row, col)` equals the corresponding plane byte when
`(ty*tileH + row, tx*tileW + col)` lies inside the image and is zero
whenever that position lies past the image boundary. -/
theorem c7_sliceTiles_spec (plane : List Nat) (W H bpp tW tH : Nat)
    (hW : 1 ≤ W) (hH : 1 ≤ H) (htW : 1 ≤ tW) (htH : 1 ≤ tH)
    (hlen : plane.length = W * H * bpp) :
    (sliceTiles plane W H bpp tW tH).length =
      ((W + tW - 1) / tW) * ((H + tH - 1) / tH) ∧
    (∀ tile ∈ sliceTiles plane W H bpp tW tH,
      tile.length = tW * tH * bpp) ∧
    (∀ ty tx row col b, ty < (H + tH - 1) / tH → tx < (W + tW - 1) / tW →
      row < tH → col < tW → b < bpp →
      ((sliceTiles plane W H bpp tW tH).getD
          (ty * ((W + tW - 1) / tW) + tx) []).getD
        ((row * tW + col) * bpp + b) 0 =
      if ty * tH + row < H ∧ tx * tW + col < W then
        plane.getD (((ty * tH + row) * W + (tx * tW + col)) * bpp + b) 0
      else 0) := by
  refine ⟨?_, ?_, ?_⟩
  · simp only [sliceTiles]
    rw [flatMap_range_map_length]
    exact Nat.mul_comm _ _
  · intro tile hmem
    simp only [sliceTiles, List.mem_flatMap, List.mem_map,
      List.mem_range] at hmem
    obtain ⟨ty, hty, tx, htx, rfl⟩ := hmem
    exact sliceTiles_tile_length plane W H bpp tW tH ty tx
  · intro ty tx row col b hty htx hrow hcol hb
    have hnX : 0 < (W + tW - 1) / tW := ceilDiv_pos W tW hW htW
    have hk : ty * ((W + tW - 1) / tW) + tx <
        ((H + tH - 1) / tH) * ((W + tW - 1) / tW) := by
      have h1 : (ty + 1) * ((W + tW - 1) / tW) ≤
          ((H + tH - 1) / tH) * ((W + tW - 1) / tW) :=
        Nat.mul_le_mul_right _ (by omega)
      have h2 : (ty + 1) * ((W + tW - 1) / tW) =
          ty * ((W + tW - 1) / tW) + ((W + tW - 1) / tW) := by ring
      omega
    have hieq : ty * ((W + tW - 1) / tW) + tx =
        ((W + tW - 1) / tW) * ty + tx := by ring
    have hdiv : (ty * ((W + tW - 1) / tW) + tx) / ((W + tW - 1) / tW) =
        ty := by
      rw [hieq, Nat.mul_add_div hnX, Nat.div_eq_of_lt htx]
      omega
    have hmod : (ty * ((W + tW - 1) / tW) + tx) % ((W + tW - 1) / tW) =
        tx := by
      conv_lhs => rw [hieq]
      rw [Nat.mul_add_mod, Nat.mod_eq_of_lt htx]
    simp only [sliceTiles]
    rw [flatMap_range_map_getD ([] : List Nat) _ _ _ _ hk hnX, hdiv, hmod]
    exact sliceTiles_tile_getD plane W H bpp tW tH ty tx hlen
      (lt_of_lt_ceilDiv ty tH H (by omega) hty)
      (lt_of_lt_ceilDiv tx tW W (by omega) htx)
      row col b hrow hcol hb

theorem c7_sliceTiles_spec_witness :
    (sliceTiles [1, 2, 3, 4, 5, 6, 7, 8, 9] 3 3 1 2 2).length = 2 * 2 ∧
    ((sliceTiles [1, 2, 3, 4, 5, 6, 7, 8, 9] 3 3 1 2 2).getD 3 []).getD
      3 0 = 0 ∧
    ((sliceTiles [1, 2, 3, 4, 5, 6, 7, 8, 9] 3 3 1 2 2).getD 0 []).getD
      1 0 = 2 := by
  have h := c7_sliceTiles_spec [1, 2, 3, 4, 5, 6, 7, 8, 9] 3 3 1 2 2
    (by decide) (by decide) (by decide) (by decide) (by decide)
  refine ⟨h.1.trans (by decide), ?_, ?_⟩
  · have h3 := h.2.2 1 1 1 1 0 (by decide) (by decide) (by decide)
      (by decide) (by decide)
    simpa using h3
  · have h0 := h.2.2 0 0 0 1 0 (by decide) (by decide) (by decide)
      (by decide) (by decide)
    simpa using h0

/-! ### Lemmas for the TIFF writer size accounting -/

theorem flatMap_utf8_replicate_a (n : Nat) :
    (List.replicate n 'a').flatMap utf8EncodeChar = List.replicate n 97 := by
  induction n with
  | zero => rfl
  | succ k ih =>
    rw [List.replicate_succ, List.flatMap_cons, ih, List.replicate_succ]
    rfl

theorem utf8Bytes_replicate_a (n : Nat) :
    utf8Bytes (String.mk (List.replicate n 'a')) = List.replicate n 97 := by
  show (String.mk (List.replicate n 'a')).toList.flatMap utf8EncodeChar = _
  exact flatMap_utf8_replicate_a n

theorem c3_resolveTag_desc :
    resolveTag
      { tag := TAG_IMAGE_DESCRIPTION, type := TIFF_TYPE_ASCII,
        values := .ascii (String.mk (List.replicate 5000000000 'a')) } =
    Except.ok
      { tag := 270, type := 2, count := 5000000001,
        valueBytes := List.replicate 5000000000 97 ++ [0] } := by
  have hlen : (List.replicate 5000000000 97 ++ ([0] : List Nat)).length =
      5000000001 := by
    rw [List.length_append, List.length_replicate, List.length_singleton]
  simp only [resolveTag, utf8Bytes_replicate_a, TAG_IMAGE_DESCRIPTION,
    TIFF_TYPE_ASCII, hlen]

theorem c3_resolveInfo :
    resolveIfdInfo CLASSIC_FORMAT c3CexIfd =
    Except.ok (.mk
      [{ tag := 270, type := 2, count := 5000000001,
         valueBytes := List.replicate 5000000000 97 ++ [0] },
       { tag := 273, type := 4, count := 0, valueBytes := [] },
       { tag := 279, type := 4, count := 0, valueBytes := [] }]
      [] [] 42 5000000002 0) := by
  have hW :
      ([{ tag := TAG_IMAGE_DESCRIPTION, type := TIFF_TYPE_ASCII,
          values := .ascii (String.mk (List.replicate 5000000000 'a')) }] :
        List TiffTag).any (fun t => t.tag = TAG_TILE_WIDTH) = false := rfl
  have h2 : ((270 : Nat) <= 273) = True := by simp
  have h3 : ((273 : Nat) <= 279) = True := by simp
  have hlen : (List.replicate 5000000000 (97:Nat) ++ [0]).length =
      5000000001 := by
    rw [List.length_append, List.length_replicate, List.length_singleton]
  have hbig : (4:Nat) <
      (List.replicate 5000000000 (97:Nat) ++ [0]).length := by
    rw [hlen]; omega
  have hodd : (List.replicate 5000000000 (97:Nat) ++ [0]).length % 2 ≠ 0 := by
    rw [hlen]; omega
  have hnil : ¬ ((4:Nat) < ([] : List Nat).length) := by
    rw [List.length_nil]; omega
  simp only [c3CexIfd, resolveIfdInfo, resolveTagList, c3_resolveTag_desc,
    hW, Bool.false_eq_true, if_false, if_true, lt_self_iff_false,
    List.length_nil, List.length_cons, List.flatMap_nil, Nat.zero_mul,
    List.replicate_zero, List.append_nil, List.nil_append,
    CLASSIC_FORMAT, TAG_STRIP_OFFSETS, TAG_STRIP_BYTE_COUNTS,
    TIFF_TYPE_LONG, List.singleton_append, sortByTag, List.foldr_cons,
    List.foldr_nil, insertByTag, h2, h3]
  have hovf : overflowSize
      [{ tag := 270, type := 2, count := 5000000001,
         valueBytes := List.replicate 5000000000 97 ++ [0] },
       { tag := 273, type := 4, count := 0, valueBytes := [] },
       { tag := 279, type := 4, count := 0, valueBytes := [] }]
      { headerSize := 8, ifdEntrySize := 12, offsetSize := 4,
        inlineThreshold := 4, offsetType := 4, magic := 42 } =
      5000000002 := by
    rw [overflowSize, List.foldl_cons, List.foldl_cons, List.foldl_cons,
      List.foldl_nil]
    rw [if_neg hnil, if_neg hnil, if_pos hbig, hlen]
    norm_num
  rw [hovf]
  rfl

theorem c3_place :
    placeIfds [c3CexIfd] CLASSIC_FORMAT =
    Except.ok [PlacedIfd.mk 8
      [{ tag := 270, type := 2, count := 5000000001,
         valueBytes := List.replicate 5000000000 97 ++ [0] },
       { tag := 273, type := 4, count := 0, valueBytes := [] },
       { tag := 279, type := 4, count := 0, valueBytes := [] }]
      50 5000000002 5000000052 [] [] 0] := by
  have hhs : CLASSIC_FORMAT.headerSize = 8 := rfl
  simp only [placeIfds, resolveIfdInfoList, c3_resolveInfo, hhs]
  simp only [placeList, placeOne, linkMain, flattenPlacedList,
    flattenPlaced, List.append_nil]

theorem c3_totalSize :
    computeTotalSize
      [PlacedIfd.mk 8
        [{ tag := 270, type := 2, count := 5000000001,
           valueBytes := List.replicate 5000000000 97 ++ [0] },
         { tag := 273, type := 4, count := 0, valueBytes := [] },
         { tag := 279, type := 4, count := 0, valueBytes := [] }]
        50 5000000002 5000000052 [] [] 0]
      CLASSIC_FORMAT = 5000000052 := rfl

theorem c3_processed :
    processIfdList id CompressionOpt.compNone [c3CexIfd] = [c3CexIfd] := by
  have hc : ((CompressionOpt.compNone = CompressionOpt.compDeflate) : Prop) =
      False := by simp
  simp only [processIfdList, processIfd, c3CexIfd, hc, if_false]

theorem c3_estimate : estimateRawSize [c3CexIfd] = 272 := by
  simp only [estimateRawSize, estimateSum, estimateOne, c3CexIfd,
    totalTileSize, List.foldl_nil]



/-- **C3 (counterexample).** The spec ties the classic-format
FileTooLarge failure to computeTotalSize, but buildTiff guards with
estimateRawSize, which ignores tag overflow data.  A single tile-less IFD
whose ImageDescription has five billion characters has an estimated size
of 272 bytes, so format "classic" builds successfully even though the
placed file size 5000000052 exceeds 2^32 - 2, and format "auto" picks the
classic format (magic 42) instead of BigTIFF for the same input. -/
theorem c3_counterexample :
    (∃ placed, placeIfds [c3CexIfd] CLASSIC_FORMAT = Except.ok placed ∧
      4294967294 < computeTotalSize placed CLASSIC_FORMAT) ∧
    (∃ buf, buildTiff id [c3CexIfd] CompressionOpt.compNone
      FormatOpt.classic = Except.ok buf) ∧
    buildTiff id [c3CexIfd] CompressionOpt.compNone FormatOpt.auto =
      buildTiff id [c3CexIfd] CompressionOpt.compNone FormatOpt.classic := by
  refine ⟨⟨_, c3_place, ?_⟩, ?_, ?_⟩
  · rw [c3_totalSize]
    omega
  · simp only [buildTiff, c3_processed, c3_estimate]
    rw [if_neg (show ¬ ((0xfffffffe : Nat) < 272) by omega)]
    simp only [buildPhases, c3_place]
    exact ⟨_, rfl⟩
  · simp only [buildTiff, c3_processed, c3_estimate]
    rw [if_neg (show ¬ ((3900000000 : Nat) < 272) by omega),
      if_neg (show ¬ ((0xfffffffe : Nat) < 272) by omega)]

theorem writeBytes_length_mono (dst : List Nat) (off : Nat)
    (src : List Nat) : dst.length ≤ (writeBytes dst off src).length := by
  simp only [writeBytes, List.length_append, List.length_take,
    List.length_drop]
  omega

theorem writeBytes_getD_low (dst : List Nat) (off : Nat) (src : List Nat)
    (d i : Nat) (hi : i < off) (hlen : i < dst.length) :
    (writeBytes dst off src).getD i d = dst.getD i d := by
  simp only [writeBytes, List.getD_eq_getElem?_getD, List.getElem?_append,
    List.length_take, List.getElem?_take]
  rw [if_pos (show i < (List.take off dst ++ src).length by
      simp only [List.length_append, List.length_take]
      omega),
    if_pos (show i < min off dst.length by omega),
    if_pos hi]

theorem le_foldl_max {α : Type} (g : α → Nat) (l : List α) (ini : Nat) :
    ini ≤ l.foldl (fun m p => max m (g p)) ini := by
  induction l generalizing ini with
  | nil => exact Nat.le_refl ini
  | cons p ps ih => exact Nat.le_trans (Nat.le_max_left ini (g p)) (ih _)

theorem computeTotalSize_ge (placed : List PlacedIfd) (fmt : TiffFormat) :
    fmt.headerSize ≤ computeTotalSize placed fmt := by
  cases placed with
  | nil => exact Nat.le_refl _
  | cons p ps =>
    simp only [computeTotalSize]
    exact le_foldl_max _ _ _

theorem writeHeader_big (buf : List Nat) (f : Nat) (hlen : 16 ≤ buf.length) :
    (writeHeader buf BIGTIFF_FORMAT f).getD 2 0 = 43 ∧
    (writeHeader buf BIGTIFF_FORMAT f).getD 3 0 = 0 ∧
    (writeHeader buf BIGTIFF_FORMAT f).length = buf.length := by
  have hm : ¬ (BIGTIFF_FORMAT.magic = 42) := by decide
  have hl16 : ∀ v, (le16 v).length = 2 := fun v => rfl
  have hl64 : (le64 f).length = 8 := rfl
  simp only [writeHeader]
  rw [if_neg hm]
  have h0 : (writeBytes buf 0 (le16 0x4949)).length = buf.length :=
    writeBytes_length_of_le _ _ _ (by rw [hl16]; omega)
  have h2 : (writeBytes (writeBytes buf 0 (le16 0x4949)) 2
      (le16 43)).length = buf.length := by
    rw [writeBytes_length_of_le _ _ _ (by rw [hl16, h0]; omega), h0]
  have h4 : (writeBytes (writeBytes (writeBytes buf 0 (le16 0x4949)) 2
      (le16 43)) 4 (le16 8)).length = buf.length := by
    rw [writeBytes_length_of_le _ _ _ (by rw [hl16, h2]; omega), h2]
  have h6 : (writeBytes (writeBytes (writeBytes (writeBytes buf 0
      (le16 0x4949)) 2 (le16 43)) 4 (le16 8)) 6 (le16 0)).length =
      buf.length := by
    rw [writeBytes_length_of_le _ _ _ (by rw [hl16, h4]; omega), h4]
  have h8 : (writeBytes (writeBytes (writeBytes (writeBytes (writeBytes buf
      0 (le16 0x4949)) 2 (le16 43)) 4 (le16 8)) 6 (le16 0)) 8
      (le64 f)).length = buf.length := by
    rw [writeBytes_length_of_le _ _ _ (by rw [hl64, h6]; omega), h6]
  refine ⟨?_, ?_, h8⟩
  · rw [writeBytes_getD_low _ _ _ _ _ (by omega) (by rw [h6]; omega),
      writeBytes_getD_low _ _ _ _ _ (by omega) (by rw [h4]; omega),
      writeBytes_getD_low _ _ _ _ _ (by omega) (by rw [h2]; omega),
      writeBytes_getD _ _ _ _ (by rw [hl16, h0]; omega) 2]
    rw [if_neg (by omega), if_pos (by rw [hl16]; omega)]
    rfl
  · rw [writeBytes_getD_low _ _ _ _ _ (by omega) (by rw [h6]; omega),
      writeBytes_getD_low _ _ _ _ _ (by omega) (by rw [h4]; omega),
      writeBytes_getD_low _ _ _ _ _ (by omega) (by rw [h2]; omega),
      writeBytes_getD _ _ _ _ (by rw [hl16, h0]; omega) 3]
    rw [if_neg (by omega), if_pos (by rw [hl16]; omega)]
    rfl
mutual
theorem placeOne_lb : ∀ (info : IfdInfo) (c : Nat),
    c ≤ (placeOne info c).2 ∧
    ∀ q ∈ flattenPlaced (placeOne info c).1,
      c ≤ q.ifdOffset ∧ c ≤ q.overflowOffset ∧ c ≤ q.tileDataOffset
  | .mk tags tiles subs ebs ov ts, c => by
    have hsub := placeList_lb subs (c + ebs + ov + ts)
    simp only [placeOne, flattenPlaced]
    constructor
    · omega
    · intro q hq
      rw [List.mem_cons] at hq
      rcases hq with hq | hq
      · subst hq
        refine ⟨Nat.le_refl c, ?_, ?_⟩ <;>
          simp only [PlacedIfd.overflowOffset, PlacedIfd.tileDataOffset] <;>
          omega
      · have := hsub.2 q hq
        exact ⟨by omega, by omega, by omega⟩

theorem placeList_lb : ∀ (infos : List IfdInfo) (c : Nat),
    c ≤ (placeList infos c).2 ∧
    ∀ q ∈ flattenPlacedList (placeList infos c).1,
      c ≤ q.ifdOffset ∧ c ≤ q.overflowOffset ∧ c ≤ q.tileDataOffset
  | [], c => by
    simp only [placeList, flattenPlacedList]
    exact ⟨Nat.le_refl c, fun q hq => absurd hq (List.not_mem_nil q)⟩
  | info :: infos, c => by
    have h1 := placeOne_lb info c
    have h2 := placeList_lb infos (placeOne info c).2
    simp only [placeList, flattenPlacedList]
    constructor
    · omega
    · intro q hq
      rw [List.mem_append] at hq
      rcases hq with hq | hq
      · exact h1.2 q hq
      · have := h2.2 q hq
        exact ⟨by omega, by omega, by omega⟩
end
theorem flattenPlaced_setNext (p : PlacedIfd) (n : Nat) :
    flattenPlaced (setNextIfdOffset p n) =
      setNextIfdOffset p n :: flattenPlacedList p.subIfds := by
  cases p with
  | mk a b c d e f g h => rfl

theorem setNext_offsets (p : PlacedIfd) (n : Nat) :
    (setNextIfdOffset p n).ifdOffset = p.ifdOffset ∧
    (setNextIfdOffset p n).overflowOffset = p.overflowOffset ∧
    (setNextIfdOffset p n).tileDataOffset = p.tileDataOffset := by
  cases p with
  | mk a b c d e f g h => exact ⟨rfl, rfl, rfl⟩

theorem flattenPlacedList_cons (p : PlacedIfd) (l : List PlacedIfd) :
    flattenPlacedList (p :: l) = flattenPlaced p ++ flattenPlacedList l := by
  rw [flattenPlacedList]

theorem flattenPlaced_eq (p : PlacedIfd) :
    flattenPlaced p = p :: flattenPlacedList p.subIfds := by
  cases p with
  | mk a b c d e f g h =>
    rw [flattenPlaced]
    rfl

theorem linkMain_lb (c : Nat) : ∀ (l : List PlacedIfd),
    (∀ q ∈ flattenPlacedList l,
      c ≤ q.ifdOffset ∧ c ≤ q.overflowOffset ∧ c ≤ q.tileDataOffset) →
    ∀ q ∈ flattenPlacedList (linkMain l),
      c ≤ q.ifdOffset ∧ c ≤ q.overflowOffset ∧ c ≤ q.tileDataOffset
  | [], h => by simpa only [linkMain] using h
  | [p], h => by simpa only [linkMain] using h
  | p :: q0 :: rest, h => by
    intro q hq
    rw [linkMain, flattenPlacedList_cons, flattenPlaced_setNext,
      List.cons_append, List.mem_cons, List.mem_append] at hq
    rcases hq with hq | hq | hq
    · subst hq
      have hmem : p ∈ flattenPlacedList (p :: q0 :: rest) := by
        rw [flattenPlacedList_cons, flattenPlaced_eq]
        exact List.mem_append_left _ (List.mem_cons_self _ _)
      have := h p hmem
      have ho := setNext_offsets p (q0.ifdOffset)
      exact ⟨by omega, by omega, by omega⟩
    · have hsn := setNext_offsets p (q0.ifdOffset)
      have hmem : q ∈ flattenPlacedList (p :: q0 :: rest) := by
        rw [flattenPlacedList_cons, flattenPlaced_eq]
        exact List.mem_append_left _ (List.mem_cons_of_mem _ hq)
      exact h q hmem
    · exact linkMain_lb c (q0 :: rest)
        (fun r hr => h r (by
          rw [flattenPlacedList_cons]
          exact List.mem_append_right _ hr)) q hq
theorem w2_low (buf : List Nat) (o1 : Nat) (s1 : List Nat) (o2 : Nat)
    (s2 : List Nat) (i d : Nat) (hlen : i < buf.length) (h1 : i < o1)
    (h2 : i < o2) :
    (writeBytes (writeBytes buf o1 s1) o2 s2).getD i d = buf.getD i d ∧
    i < (writeBytes (writeBytes buf o1 s1) o2 s2).length := by
  have m1 := writeBytes_length_mono buf o1 s1
  have m2 := writeBytes_length_mono (writeBytes buf o1 s1) o2 s2
  refine ⟨?_, by omega⟩
  rw [writeBytes_getD_low _ _ _ _ _ h2 (by omega),
    writeBytes_getD_low _ _ _ _ _ h1 hlen]

theorem w3_low (buf : List Nat) (o1 : Nat) (s1 : List Nat) (o2 : Nat)
    (s2 : List Nat) (o3 : Nat) (s3 : List Nat) (i d : Nat)
    (hlen : i < buf.length) (h1 : i < o1) (h2 : i < o2) (h3 : i < o3) :
    (writeBytes (writeBytes (writeBytes buf o1 s1) o2 s2) o3 s3).getD i d =
      buf.getD i d ∧
    i < (writeBytes (writeBytes (writeBytes buf o1 s1) o2 s2) o3
      s3).length := by
  have m1 := writeBytes_length_mono buf o1 s1
  have m2 := writeBytes_length_mono (writeBytes buf o1 s1) o2 s2
  have m3 := writeBytes_length_mono
    (writeBytes (writeBytes buf o1 s1) o2 s2) o3 s3
  refine ⟨?_, by omega⟩
  rw [writeBytes_getD_low _ _ _ _ _ h3 (by omega),
    writeBytes_getD_low _ _ _ _ _ h2 (by omega),
    writeBytes_getD_low _ _ _ _ _ h1 hlen]

theorem writeTagEntry_low (fmt : TiffFormat) (tOffs : List Nat)
    (tiles : List (List Nat)) (sOffs : List Nat) (t : ResolvedTag)
    (buf : List Nat) (pos oc : Nat) (i d : Nat)
    (hpos : i < pos) (hoc : i < oc) (hlen : i < buf.length) :
    (writeTagEntry fmt tOffs tiles sOffs (buf, pos, oc) t).1.getD i d =
      buf.getD i d ∧
    i < (writeTagEntry fmt tOffs tiles sOffs (buf, pos, oc) t).1.length ∧
    i < (writeTagEntry fmt tOffs tiles sOffs (buf, pos, oc) t).2.1 ∧
    i < (writeTagEntry fmt tOffs tiles sOffs (buf, pos, oc) t).2.2 := by
  simp only [writeTagEntry]
  split_ifs <;>
    dsimp only <;>
    refine ⟨?_, ?_, by omega, by omega⟩ <;>
    first
      | exact (w3_low _ _ _ _ _ _ _ _ d hlen hpos (by omega) hoc).1
      | exact (w3_low _ _ _ _ _ _ _ _ d hlen hpos (by omega) hoc).2
      | exact (w2_low _ _ _ _ _ _ d hlen hpos (by omega)).1
      | exact (w2_low _ _ _ _ _ _ d hlen hpos (by omega)).2
theorem tagfold_low (fmt : TiffFormat) (tOffs : List Nat)
    (tiles : List (List Nat)) (sOffs : List Nat) :
    ∀ (tags : List ResolvedTag) (buf : List Nat) (pos oc i d : Nat),
    i < pos → i < oc → i < buf.length →
    ((tags.foldl (writeTagEntry fmt tOffs tiles sOffs)
        (buf, pos, oc)).1.getD i d = buf.getD i d) ∧
    i < (tags.foldl (writeTagEntry fmt tOffs tiles sOffs)
        (buf, pos, oc)).1.length ∧
    i < (tags.foldl (writeTagEntry fmt tOffs tiles sOffs)
        (buf, pos, oc)).2.1 ∧
    i < (tags.foldl (writeTagEntry fmt tOffs tiles sOffs)
        (buf, pos, oc)).2.2 := by
  intro tags
  induction tags with
  | nil =>
    intro buf pos oc i d hpos hoc hlen
    exact ⟨rfl, hlen, hpos, hoc⟩
  | cons t ts ih =>
    intro buf pos oc i d hpos hoc hlen
    rw [List.foldl_cons]
    have hstep := writeTagEntry_low fmt tOffs tiles sOffs t buf pos oc i d
      hpos hoc hlen
    have hrec := ih (writeTagEntry fmt tOffs tiles sOffs (buf, pos, oc) t).1
      (writeTagEntry fmt tOffs tiles sOffs (buf, pos, oc) t).2.1
      (writeTagEntry fmt tOffs tiles sOffs (buf, pos, oc) t).2.2 i d
      hstep.2.2.1 hstep.2.2.2 hstep.2.1
    refine ⟨?_, hrec.2.1, hrec.2.2.1, hrec.2.2.2⟩
    rw [hrec.1, hstep.1]

theorem tilefold_low :
    ∀ (tiles : List (List Nat)) (buf : List Nat) (cur i d : Nat),
    i < cur → i < buf.length →
    ((tiles.foldl (fun (acc : List Nat × Nat) t =>
        (writeBytes acc.1 acc.2 t, acc.2 + t.length)) (buf, cur)).1.getD i d
      = buf.getD i d) ∧
    i < (tiles.foldl (fun (acc : List Nat × Nat) t =>
        (writeBytes acc.1 acc.2 t, acc.2 + t.length)) (buf, cur)).1.length := by
  intro tiles
  induction tiles with
  | nil =>
    intro buf cur i d hcur hlen
    exact ⟨rfl, hlen⟩
  | cons t ts ih =>
    intro buf cur i d hcur hlen
    rw [List.foldl_cons]
    have hmono := writeBytes_length_mono buf cur t
    have hrec := ih (writeBytes buf cur t) (cur + t.length) i d (by omega)
      (by omega)
    refine ⟨?_, hrec.2⟩
    rw [hrec.1, writeBytes_getD_low _ _ _ _ _ hcur hlen]

theorem writeIfd_low (buf : List Nat) (p : PlacedIfd) (fmt : TiffFormat)
    (i d : Nat) (h1 : i < p.ifdOffset) (h2 : i < p.overflowOffset)
    (h3 : i < p.tileDataOffset) (hlen : i < buf.length) :
    (writeIfd buf p fmt).getD i d = buf.getD i d ∧
    i < (writeIfd buf p fmt).length := by
  cases p with
  | mk ifdOffset tags overflowOffset ovs tileDataOffset tiles subIfds
      nextIfdOffset =>
    simp only [PlacedIfd.ifdOffset] at h1
    simp only [PlacedIfd.overflowOffset] at h2
    simp only [PlacedIfd.tileDataOffset] at h3
    simp only [writeIfd]
    have hstart1 : (if fmt.magic = 43 then
        (writeBytes buf ifdOffset (le64 tags.length), ifdOffset + 8)
      else
        (writeBytes buf ifdOffset (le16 tags.length),
          ifdOffset + 2)).1.getD i d = buf.getD i d := by
      split_ifs <;> dsimp only <;>
        exact writeBytes_getD_low _ _ _ _ _ h1 hlen
    have hstart2 : i < (if fmt.magic = 43 then
        (writeBytes buf ifdOffset (le64 tags.length), ifdOffset + 8)
      else
        (writeBytes buf ifdOffset (le16 tags.length),
          ifdOffset + 2)).1.length := by
      split_ifs <;> dsimp only <;>
        exact Nat.lt_of_lt_of_le hlen (writeBytes_length_mono _ _ _)
    have hstart3 : i < (if fmt.magic = 43 then
        (writeBytes buf ifdOffset (le64 tags.length), ifdOffset + 8)
      else
        (writeBytes buf ifdOffset (le16 tags.length),
          ifdOffset + 2)).2 := by
      split_ifs <;> dsimp only <;> omega
    generalize hst : (if fmt.magic = 43 then
        (writeBytes buf ifdOffset (le64 tags.length), ifdOffset + 8)
      else
        (writeBytes buf ifdOffset (le16 tags.length),
          ifdOffset + 2)) = start
    rw [hst] at hstart1 hstart2 hstart3
    generalize (if fmt.magic = 43 then le64 nextIfdOffset
      else le32 nextIfdOffset) = nb
    have htf := tagfold_low fmt (tileOffsetsFrom tileDataOffset tiles)
      tiles (List.map PlacedIfd.ifdOffset subIfds) tags start.1 start.2
      overflowOffset i d hstart3 h2 hstart2
    have hnwlen := writeBytes_length_mono
      (tags.foldl (writeTagEntry fmt (tileOffsetsFrom tileDataOffset tiles)
        tiles (List.map PlacedIfd.ifdOffset subIfds))
        (start.1, start.2, overflowOffset)).1
      (tags.foldl (writeTagEntry fmt (tileOffsetsFrom tileDataOffset tiles)
        tiles (List.map PlacedIfd.ifdOffset subIfds))
        (start.1, start.2, overflowOffset)).2.1 nb
    have hnw := writeBytes_getD_low
      (tags.foldl (writeTagEntry fmt (tileOffsetsFrom tileDataOffset tiles)
        tiles (List.map PlacedIfd.ifdOffset subIfds))
        (start.1, start.2, overflowOffset)).1
      (tags.foldl (writeTagEntry fmt (tileOffsetsFrom tileDataOffset tiles)
        tiles (List.map PlacedIfd.ifdOffset subIfds))
        (start.1, start.2, overflowOffset)).2.1 nb d i htf.2.2.1 htf.2.1
    have htile := tilefold_low tiles
      (writeBytes
        (tags.foldl (writeTagEntry fmt
          (tileOffsetsFrom tileDataOffset tiles)
          tiles (List.map PlacedIfd.ifdOffset subIfds))
          (start.1, start.2, overflowOffset)).1
        (tags.foldl (writeTagEntry fmt
          (tileOffsetsFrom tileDataOffset tiles)
          tiles (List.map PlacedIfd.ifdOffset subIfds))
          (start.1, start.2, overflowOffset)).2.1 nb)
      tileDataOffset i d h3 (by omega)
    refine ⟨?_, htile.2⟩
    rw [htile.1, hnw, htf.1, hstart1]
theorem placedfold_low (fmt : TiffFormat) :
    ∀ (placed : List PlacedIfd) (buf : List Nat) (i d : Nat),
    (∀ p ∈ placed, i < p.ifdOffset ∧ i < p.overflowOffset ∧
      i < p.tileDataOffset) →
    i < buf.length →
    ((placed.foldl (fun b p => writeIfd b p fmt) buf).getD i d =
      buf.getD i d) ∧
    i < (placed.foldl (fun b p => writeIfd b p fmt) buf).length := by
  intro placed
  induction placed with
  | nil =>
    intro buf i d hall hlen
    exact ⟨rfl, hlen⟩
  | cons p ps ih =>
    intro buf i d hall hlen
    rw [List.foldl_cons]
    have hp := hall p (List.mem_cons_self _ _)
    have hw := writeIfd_low buf p fmt i d hp.1 hp.2.1 hp.2.2 hlen
    have hrec := ih (writeIfd buf p fmt) i d
      (fun q hq => hall q (List.mem_cons_of_mem _ hq)) hw.2
    exact ⟨hrec.1.trans hw.1, hrec.2⟩

theorem buildPhases_big_header (ifds : List WritableIfd) (buf : List Nat)
    (h : buildPhases ifds BIGTIFF_FORMAT = Except.ok buf) :
    buf.getD 2 0 = 43 ∧ buf.getD 3 0 = 0 := by
  simp only [buildPhases] at h
  cases hpl : placeIfds ifds BIGTIFF_FORMAT with
  | error e =>
    rw [hpl] at h
    exact absurd h (by simp)
  | ok placed =>
    rw [hpl] at h
    simp only [Except.ok.injEq] at h
    have hbounds : ∀ q ∈ placed, 16 ≤ q.ifdOffset ∧
        16 ≤ q.overflowOffset ∧ 16 ≤ q.tileDataOffset := by
      simp only [placeIfds] at hpl
      cases hri : resolveIfdInfoList BIGTIFF_FORMAT ifds with
      | error e =>
        rw [hri] at hpl
        exact absurd hpl (by simp)
      | ok mainInfos =>
        rw [hri] at hpl
        simp only [Except.ok.injEq] at hpl
        intro q hq
        have hplaced := hpl
        rw [← hplaced] at hq
        have hlb := placeList_lb mainInfos BIGTIFF_FORMAT.headerSize
        exact linkMain_lb BIGTIFF_FORMAT.headerSize _ hlb.2 q hq
    have hts : 16 ≤ computeTotalSize placed BIGTIFF_FORMAT :=
      computeTotalSize_ge placed BIGTIFF_FORMAT
    have hrl : (List.replicate (computeTotalSize placed BIGTIFF_FORMAT)
        (0 : Nat)).length = computeTotalSize placed BIGTIFF_FORMAT :=
      List.length_replicate _ _
    obtain ⟨fo, hfo⟩ : ∃ fo, List.foldl
        (fun b p => writeIfd b p BIGTIFF_FORMAT)
        (writeHeader
          (List.replicate (computeTotalSize placed BIGTIFF_FORMAT) 0)
          BIGTIFF_FORMAT fo) placed = buf := ⟨_, h⟩
    have hwh := writeHeader_big
      (List.replicate (computeTotalSize placed BIGTIFF_FORMAT) 0) fo
      (by omega)
    have hf2 := placedfold_low BIGTIFF_FORMAT placed
      (writeHeader
        (List.replicate (computeTotalSize placed BIGTIFF_FORMAT) 0)
        BIGTIFF_FORMAT fo) 2 0
      (fun p hp => by
        have := hbounds p hp
        exact ⟨by omega, by omega, by omega⟩)
      (by rw [hwh.2.2, hrl]; omega)
    have hf3 := placedfold_low BIGTIFF_FORMAT placed
      (writeHeader
        (List.replicate (computeTotalSize placed BIGTIFF_FORMAT) 0)
        BIGTIFF_FORMAT fo) 3 0
      (fun p hp => by
        have := hbounds p hp
        exact ⟨by omega, by omega, by omega⟩)
      (by rw [hwh.2.2, hrl]; omega)
    rw [← hfo]
    exact ⟨hf2.1.trans hwh.1, hf3.1.trans hwh.2.1⟩
theorem buildPhases_ne_large (ifds : List WritableIfd)
    (fmt : TiffFormat) :
    buildPhases ifds fmt ≠ Except.error BuildErr.fileTooLarge := by
  intro h
  simp only [buildPhases] at h
  cases hpl : placeIfds ifds fmt with
  | error e =>
    rw [hpl] at h
    simp at h
  | ok placed =>
    rw [hpl] at h
    simp at h

/-- **C3 (amended).** buildTiff with format "classic" fails with
FileTooLarge exactly when estimateRawSize of the compressed IFDs (16
bytes base plus 256 per IFD plus tile bytes, recursing into SubIFDs)
exceeds 2^32 - 2; format "auto" behaves as "bigtiff" when that estimate
exceeds 3.9e9 and as "classic" otherwise; and every buffer built in the
BigTIFF format carries magic 43 (little-endian 43, 0) at header bytes 2
and 3. -/
theorem c3_buildTiff_amended (deflate : List Nat → List Nat)
    (ifds : List WritableIfd) (comp : CompressionOpt) :
    (buildTiff deflate ifds comp FormatOpt.classic =
        Except.error BuildErr.fileTooLarge ↔
      4294967294 < estimateRawSize (processIfdList deflate comp ifds)) ∧
    (buildTiff deflate ifds comp FormatOpt.auto =
      if 3900000000 < estimateRawSize (processIfdList deflate comp ifds)
      then buildTiff deflate ifds comp FormatOpt.bigtiff
      else buildTiff deflate ifds comp FormatOpt.classic) ∧
    (∀ buf, buildTiff deflate ifds comp FormatOpt.bigtiff =
        Except.ok buf →
      buf.getD 2 0 = 43 ∧ buf.getD 3 0 = 0) := by
  refine ⟨?_, ?_, ?_⟩
  · simp only [buildTiff]
    by_cases hc : 4294967294 <
        estimateRawSize (processIfdList deflate comp ifds)
    · rw [if_pos hc]
      exact ⟨fun _ => hc, fun _ => rfl⟩
    · rw [if_neg hc]
      constructor
      · intro h
        exact absurd h (buildPhases_ne_large _ _)
      · intro h
        exact absurd h hc
  · simp only [buildTiff]
    by_cases hc : 3900000000 <
        estimateRawSize (processIfdList deflate comp ifds)
    · rw [if_pos hc, if_pos hc]
    · rw [if_neg hc, if_neg hc,
        if_neg (show ¬ (4294967294 <
          estimateRawSize (processIfdList deflate comp ifds)) by omega)]
  · intro buf h
    simp only [buildTiff] at h
    exact buildPhases_big_header _ _ h

theorem c3_buildTiff_amended_witness :
    (buildTiff id [] CompressionOpt.compNone FormatOpt.classic =
        Except.error BuildErr.fileTooLarge ↔
      4294967294 <
        estimateRawSize (processIfdList id CompressionOpt.compNone [])) ∧
    (∃ buf, buildTiff id [] CompressionOpt.compNone FormatOpt.bigtiff =
        Except.ok buf ∧ buf.getD 2 0 = 43 ∧ buf.getD 3 0 = 0) := by
  have h := c3_buildTiff_amended id [] CompressionOpt.compNone
  have hbig : buildTiff id [] CompressionOpt.compNone FormatOpt.bigtiff =
      Except.ok [73, 73, 43, 0, 8, 0, 0, 0, 0, 0, 0, 0, 0, 0, 0, 0] := by
    simp only [buildTiff, processIfdList, estimateRawSize, estimateSum,
      buildPhases, placeIfds, resolveIfdInfoList, placeList, linkMain,
      flattenPlacedList, computeTotalSize, writeHeader, BIGTIFF_FORMAT]
    rfl
  exact ⟨h.1, [73, 73, 43, 0, 8, 0, 0, 0, 0, 0, 0, 0, 0, 0, 0, 0], hbig,
    (h.2.2 _ hbig).1, (h.2.2 _ hbig).2⟩

/-- **C4.** Evaluation of the writer-then-parser round trip at the
failing input: the dimension sizes, dimension order and element type
survive, but the parser's channel regex drops the channel whose Name
attribute contains a slash (the attribute character class excludes the
slash, and the writer's escapeXml leaves slashes unescaped), so the
generator was given channels Channel:0:0 and Channel:0:1 and the parse
returns only Channel:0:1. -/
theorem c4_channel_slash_bug :
    (parseOmeXml (buildOmeXml c4Multi ZarrDataType.uint8 {})).map
      (List.map fun img =>
        (img.pixels.sizeX, img.pixels.sizeY, img.pixels.sizeZ,
         img.pixels.sizeC, img.pixels.sizeT, img.pixels.dimensionOrder,
         img.pixels.type, img.pixels.channels.map (fun ch => ch.id))) =
      Except.ok [(some 5, some 4, some 1, some 2, some 1,
        DimensionOrder.XYZCT, "uint8", ["Channel:0:1"])] ∧
    (["Channel:0:1"] ≠ ["Channel:0:0", "Channel:0:1"]) := by
  exact ⟨by rfl, by decide⟩
